import Mathlib

/-!
Shallow embedding of the FlexiMart ETL pipeline
(`part1-database-etl/etl_pipeline.py`): the field normalizers, the data
quality metrics tracker, the customer and product loaders, and the sales
aggregator, together with proofs about the specification's testable
properties.  Machine floats of the Python code are modelled by exact
rationals, the MySQL storage by in-memory tables with auto-increment
surrogate keys, and unanticipated per-row storage errors by an explicit
environment choice (a `Nat → Bool` oracle over insert positions).
-/

namespace Fleximart

/-! ### Generic helpers -/

/-- Keep the first occurrence of each key, dropping later rows whose key was
already seen; models `DataFrame.drop_duplicates(subset=[...], keep='first')`.
pandas treats two NaN keys as duplicates of each other, which matches plain
`Option` equality here. -/
def dedupByKey {α κ : Type} [DecidableEq κ] (key : α → κ) : List α → List κ → List α
  | [], _ => []
  | x :: xs, seen =>
    if key x ∈ seen then dedupByKey key xs seen
    else x :: dedupByKey key xs (key x :: seen)

def dedupBy {α κ : Type} [DecidableEq κ] (key : α → κ) (l : List α) : List α :=
  dedupByKey key l []

/-- Python dict assignment `m[k] = v`: the new binding shadows any older one. -/
def dictInsert (m : List (String × Nat)) (k : String) (v : Nat) : List (String × Nat) :=
  (k, v) :: m.filter (fun p => !(p.1 == k))

/-! ### Data quality metrics tracker (`DataQualityMetrics`) -/

/-- Per-file counters of `DataQualityMetrics`; each loader touches exactly one
file key, so one record describes one loader run. -/
structure Metrics where
  records_read : Nat
  duplicates_removed : Nat
  missing_values_filled : Nat
  rows_dropped : Nat
  records_loaded : Nat
  drop_reasons : List (String × Nat)
deriving DecidableEq, Repr

def Metrics.init : Metrics := ⟨0, 0, 0, 0, 0, []⟩

def Metrics.read (m : Metrics) (n : Nat) : Metrics :=
  { m with records_read := m.records_read + n }

def Metrics.dup (m : Metrics) (n : Nat) : Metrics :=
  { m with duplicates_removed := m.duplicates_removed + n }

def Metrics.filled (m : Metrics) (n : Nat) : Metrics :=
  { m with missing_values_filled := m.missing_values_filled + n }

def Metrics.loaded (m : Metrics) (n : Nat) : Metrics :=
  { m with records_loaded := m.records_loaded + n }

def Metrics.dropped (m : Metrics) (reason : String) (n : Nat) : Metrics :=
  { m with rows_dropped := m.rows_dropped + n,
           drop_reasons := m.drop_reasons ++ [(reason, n)] }

/-- Total recorded for one drop reason (the nested `drop_reasons` defaultdict). -/
def Metrics.reasonCount (m : Metrics) (r : String) : Nat :=
  (m.drop_reasons.filter (fun p => p.1 == r)).foldl (fun a p => a + p.2) 0

/-! ### Phone normalizer (`clean_phone`) -/

/-- A raw phone cell, abstracted at the Python numeric coercion
`int(float(phone))`: `missing` is a NaN cell, `unconvertible` a value on which
the coercion raises, and `val n` a value whose coercion yields the integer
`n` (scientific notation is absorbed by this coercion). -/
inductive PhoneRaw
  | missing
  | unconvertible
  | val (n : Int)
deriving DecidableEq, Repr

/-- Models `clean_phone`: a NaN cell gives `none`; otherwise the value is
rendered with `str(int(float(phone)))` and, when that string has at least 10
characters, its last 10 characters follow the text `"+91-"`; shorter strings
and failed coercions give `none`. -/
def clean_phone (phone : PhoneRaw) : Option String :=
  match phone with
  | .missing => none
  | .unconvertible => none
  | .val n =>
    let phone_str := toString n
    if 10 ≤ phone_str.toList.length then
      some ("+91-" ++ String.mk (phone_str.toList.drop (phone_str.toList.length - 10)))
    else none

/-- The output pattern asserted by the spec: the text `"+91-"` followed by
exactly 10 decimal digits. -/
def isPhonePattern (s : String) : Bool :=
  s.toList.length == 14 && s.toList.take 4 == "+91-".toList &&
    (s.toList.drop 4).all Char.isDigit

/-! ### Date normalizer (`clean_date_series`) -/

/-- A calendar date as produced by the date parsing of the pipeline. -/
structure Date where
  year : Nat
  month : Nat
  day : Nat
deriving DecidableEq, Repr

def isLeap (y : Nat) : Bool :=
  y % 4 == 0 && (y % 100 != 0 || y % 400 == 0)

def daysInMonth (y m : Nat) : Nat :=
  if m == 2 then (if isLeap y then 29 else 28)
  else if m == 4 || m == 6 || m == 9 || m == 11 then 30
  else 31

def dateCode (d : Date) : Nat :=
  d.year * 10000 + d.month * 100 + d.day

/-- pandas stores parsed dates as nanosecond timestamps; midnight is
representable exactly for 1677-09-22 through 2262-04-11, and out-of-range
dates are coerced to NaT by `errors='coerce'`. -/
def inTimestampBounds (d : Date) : Bool :=
  16770922 ≤ dateCode d && dateCode d ≤ 22620411

/-- A date the parser can return: a real calendar date (Gregorian leap rule)
inside the representable pandas timestamp range. -/
def validDate (d : Date) : Bool :=
  1 ≤ d.month && d.month ≤ 12 && 1 ≤ d.day && d.day ≤ daysInMonth d.year d.month &&
    inTimestampBounds d

def digitVal (c : Char) : Nat := c.toNat - 48

/-- Numeric text of one field: nonempty, all decimal digits, read as a number. -/
def parseDigits (cs : List Char) : Option Nat :=
  if !cs.isEmpty && cs.all Char.isDigit then
    some (cs.foldl (fun a c => 10 * a + digitVal c) 0)
  else none

/-- strptime `%Y`: exactly four digits. -/
def parseYearField (cs : List Char) : Option Nat :=
  if cs.length == 4 then parseDigits cs else none

/-- strptime numeric fields `%m` and `%d`: one or two digits, no bare zero,
value between 1 and `hi` (12 for months, 31 for days). -/
def parseField2 (hi : Nat) (cs : List Char) : Option Nat :=
  if cs.length == 1 || cs.length == 2 then
    match parseDigits cs with
    | some v => if 1 ≤ v && v ≤ hi then some v else none
    | none => none
  else none

/-- Split a character list at every occurrence of a separator character. -/
def splitSep (sep : Char) : List Char → List (List Char)
  | [] => [[]]
  | c :: cs =>
    if c = sep then [] :: splitSep sep cs
    else
      match splitSep sep cs with
      | [] => [[c]]
      | p :: ps => (c :: p) :: ps

/-- Semantic validation performed by the datetime constructor: out-of-range or
non-calendar component combinations are coerced to NaT. -/
def checkDate (y m d : Nat) : Option Date :=
  if validDate ⟨y, m, d⟩ then some ⟨y, m, d⟩ else none

/-- `pd.to_datetime(..., format='%Y-%m-%d', errors='coerce')` on one entry. -/
def parseYmd (s : String) : Option Date :=
  match splitSep '-' s.toList with
  | [ys, ms, ds] =>
    match parseYearField ys, parseField2 12 ms, parseField2 31 ds with
    | some y, some m, some d => checkDate y m d
    | _, _, _ => none
  | _ => none

/-- format `'%d/%m/%Y'` (day-first). -/
def parseDmySlash (s : String) : Option Date :=
  match splitSep '/' s.toList with
  | [ds, ms, ys] =>
    match parseYearField ys, parseField2 12 ms, parseField2 31 ds with
    | some y, some m, some d => checkDate y m d
    | _, _, _ => none
  | _ => none

/-- format `'%m-%d-%Y'` (month-first, hyphenated). -/
def parseMdyDash (s : String) : Option Date :=
  match splitSep '-' s.toList with
  | [ms, ds, ys] =>
    match parseYearField ys, parseField2 12 ms, parseField2 31 ds with
    | some y, some m, some d => checkDate y m d
    | _, _, _ => none
  | _ => none

/-- format `'%m/%d/%Y'` (month-first, slash-separated). -/
def parseMdySlash (s : String) : Option Date :=
  match splitSep '/' s.toList with
  | [ms, ds, ys] =>
    match parseYearField ys, parseField2 12 ms, parseField2 31 ds with
    | some y, some m, some d => checkDate y m d
    | _, _, _ => none
  | _ => none

/-- The effect of `clean_date_series` on one entry: the four formats tried in
order, first success winning. -/
def parse_date (s : String) : Option Date :=
  match parseYmd s with
  | some d => some d
  | none =>
    match parseDmySlash s with
    | some d => some d
    | none =>
      match parseMdyDash s with
      | some d => some d
      | none => parseMdySlash s

/-- One masking pass `dates[mask] = pd.to_datetime(series[mask], ...)`:
entries that are still NaT are retried under the next format. -/
def fillNaT (p : String → Option Date) (src : List (Option String)) (cur : List (Option Date)) :
    List (Option Date) :=
  List.zipWith (fun x c => match c with | some v => some v | none => Option.bind x p) src cur

/-- Models `clean_date_series` over a column: ISO first, then the three
fallback formats on the rows still unparsed. -/
def clean_date_series (src : List (Option String)) : List (Option Date) :=
  let d1 := src.map (fun x => Option.bind x parseYmd)
  let d2 := fillNaT parseDmySlash src d1
  let d3 := fillNaT parseMdyDash src d2
  fillNaT parseMdySlash src d3

def digitChar (d : Nat) : Char := Char.ofNat (48 + d)

def natDigits (n : Nat) : List Char :=
  ((Nat.digits 10 n).reverse).map digitChar

def padZero (w : Nat) (cs : List Char) : List Char :=
  List.replicate (w - cs.length) '0' ++ cs

/-- `x.strftime('%Y-%m-%d')`: the normalized textual form stored downstream. -/
def fmtDate (d : Date) : String :=
  String.mk (padZero 4 (natDigits d.year) ++
    '-' :: (padZero 2 (natDigits d.month) ++ '-' :: padZero 2 (natDigits d.day)))

/-! ### Customer loader (`process_customers`) -/

/-- One row of `customers_raw.csv`; each textual cell may be NaN. -/
structure RawCustomer where
  customer_id : String
  first_name : Option String
  last_name : Option String
  email : Option String
  phone : PhoneRaw
  city : Option String
  registration_date : Option String
deriving DecidableEq, Repr

/-- One stored row of the `customers` table; `key` is the auto-increment
surrogate key. -/
structure CustomerRow where
  key : Nat
  first_name : Option String
  last_name : Option String
  email : Option String
  phone : Option String
  city : Option String
  registration_date : Option String
deriving DecidableEq, Repr

structure CustDB where
  rows : List CustomerRow
  nextKey : Nat
deriving DecidableEq, Repr

def CustDB.empty : CustDB := ⟨[], 1⟩

/-- A customer row after Step 4 of `process_customers`: phone canonicalized
and the date re-rendered as `YYYY-MM-DD` text or `none`. -/
structure PendingCustomer where
  customer_id : String
  first_name : Option String
  last_name : Option String
  email : Option String
  phone : Option String
  city : Option String
  registration_date : Option String
deriving DecidableEq, Repr

/-- Step 2: `df.drop_duplicates(subset=['email'], keep='first')`. -/
def dedupCust (input : List RawCustomer) : List RawCustomer :=
  dedupBy (fun r => r.email) input

/-- Step 3: drop the rows whose email is missing. -/
def custSurvivors (input : List RawCustomer) : List RawCustomer :=
  (dedupCust input).filter (fun r => !(r.email == none))

/-- Number of rows dropped with reason `missing_email`. -/
def custMissing (input : List RawCustomer) : Nat :=
  (dedupCust input).countP (fun r => r.email == none)

/-- Step 4: standardize phone numbers, and clean the registration-date column
as one series, storing `YYYY-MM-DD` text for parsed dates and `none`
(a nullable column) otherwise. -/
def transformCustomers (l : List RawCustomer) : List PendingCustomer :=
  List.zipWith
    (fun r d =>
      { customer_id := r.customer_id, first_name := r.first_name,
        last_name := r.last_name, email := r.email,
        phone := clean_phone r.phone, city := r.city,
        registration_date := Option.map fmtDate d })
    l (clean_date_series (l.map (fun r => r.registration_date)))

/-- The same transformation, row by row. -/
def transformCustomer (r : RawCustomer) : PendingCustomer :=
  { customer_id := r.customer_id, first_name := r.first_name,
    last_name := r.last_name, email := r.email,
    phone := clean_phone r.phone, city := r.city,
    registration_date := Option.map fmtDate (Option.bind r.registration_date parse_date) }

/-- Rows counted as `missing_values_filled` (null stored registration dates). -/
def custInvalidDates (input : List RawCustomer) : Nat :=
  (transformCustomers (custSurvivors input)).countP (fun r => r.registration_date == none)

/-- State of the customer insert loop: stored table, source-to-surrogate map,
`records_loaded` so far, and the error log. -/
structure CustState where
  db : CustDB
  idMap : List (String × Nat)
  loadedCount : Nat
  log : List String
deriving DecidableEq, Repr

/-- The storage-layer uniqueness check on the email column. -/
def emailExists (db : CustDB) (e : Option String) : Bool :=
  db.rows.any (fun c => c.email == e)

/-- One iteration of the customer insert loop.  The boolean of the pair is the
environment's choice of an unanticipated storage error for this row's INSERT;
a duplicate-email uniqueness violation is determined by the stored rows and is
recovered by looking up the pre-existing surrogate key, while any other error
is logged and the row skipped. -/
def custStep (st : CustState) (p : PendingCustomer × Bool) : CustState :=
  let r := p.1
  if p.2 then
    { st with log := st.log ++ ["Error loading customer"] }
  else if emailExists st.db r.email then
    match st.db.rows.find? (fun c => c.email == r.email) with
    | some c => { st with idMap := dictInsert st.idMap r.customer_id c.key }
    | none => st
  else
    let k := st.db.nextKey
    { st with
      db := { rows := st.db.rows ++
                [⟨k, r.first_name, r.last_name, r.email, r.phone, r.city, r.registration_date⟩],
              nextKey := k + 1 },
      loadedCount := st.loadedCount + 1,
      idMap := if k ≠ 0 then dictInsert st.idMap r.customer_id k else st.idMap }

/-- Step 5: the insert loop over the transformed rows, each paired with its
environment error bit. -/
def custLoadZ (st : CustState) (l : List (PendingCustomer × Bool)) : CustState :=
  l.foldl custStep st

structure CustResult where
  db : CustDB
  idMap : List (String × Nat)
  metrics : Metrics
  log : List String
deriving DecidableEq, Repr

/-- Models `process_customers`: extract (the given rows), deduplicate by
email, drop missing emails, standardize, insert with duplicate-email recovery,
and return the identity map together with the metrics of this file. -/
def process_customers (input : List RawCustomer) (db0 : CustDB) (oracle : Nat → Bool) :
    CustResult :=
  let m := (Metrics.init.read input.length).dup (input.length - (dedupCust input).length)
  let m := m.dropped "missing_email" (custMissing input)
  let pend := transformCustomers (custSurvivors input)
  let m := if 0 < custInvalidDates input then m.filled (custInvalidDates input) else m
  let st := custLoadZ ⟨db0, [], 0, []⟩ (pend.zip ((List.range pend.length).map oracle))
  ⟨st.db, st.idMap, m.loaded st.loadedCount, st.log⟩

/-! ### Product loader (`process_products`) -/

structure RawProduct where
  product_id : String
  product_name : Option String
  category : Option String
  price : Option Rat
  stock_quantity : Option Int
deriving DecidableEq, Repr

/-- One stored row of the `products` table. -/
structure ProductRow where
  key : Nat
  product_name : Option String
  category : String
  price : Option Rat
  stock_quantity : Int
deriving DecidableEq, Repr

structure PendingProduct where
  product_id : String
  product_name : Option String
  category : String
  price : Option Rat
  stock_quantity : Int
deriving DecidableEq, Repr

/-- Python `str(x)` on a possibly-missing cell: `astype(str)` renders a NaN
cell as the text `"nan"`. -/
def pyStrOfOpt (s : Option String) : String :=
  match s with
  | some v => v
  | none => "nan"

def titleCaseAux : Bool → List Char → List Char
  | _, [] => []
  | prevAlpha, c :: cs =>
    (if c.isAlpha then (if prevAlpha then c.toLower else c.toUpper) else c) ::
      titleCaseAux c.isAlpha cs

/-- Python `str.title()` on ASCII text: the first letter of every alphabetic
run is uppercased and the rest lowercased. -/
def titleCase (s : String) : String :=
  String.mk (titleCaseAux false s.toList)

/-- Steps 3 and 4: Title-Case the category and fill missing stock with 0. -/
def transformProduct (r : RawProduct) : PendingProduct :=
  { product_id := r.product_id, product_name := r.product_name,
    category := titleCase (pyStrOfOpt r.category),
    price := r.price,
    stock_quantity := Option.getD r.stock_quantity 0 }

/-- Step 2: `df.drop_duplicates(subset=['product_id'], keep='first')`. -/
def dedupProd (input : List RawProduct) : List RawProduct :=
  dedupBy (fun r => r.product_id) input

/-- Rows counted as `missing_values_filled` (stock filled with 0). -/
def prodNullStock (input : List RawProduct) : Nat :=
  (dedupProd input).countP (fun r => r.stock_quantity == none)

/-- Rows counted as dropped with reason `missing_price`. -/
def prodMissingPrice (input : List RawProduct) : Nat :=
  ((dedupProd input).map transformProduct).countP (fun r => r.price == none)

/-- Step 5: drop the rows whose price is missing. -/
def prodSurvivors (input : List RawProduct) : List PendingProduct :=
  ((dedupProd input).map transformProduct).filter (fun r => !(r.price == none))

structure ProdState where
  rows : List ProductRow
  nextKey : Nat
  idMap : List (String × Nat)
  metrics : Metrics
deriving DecidableEq, Repr

/-- The product insert loop: there is no per-row exception handler, so an
insert error (the environment bit for this row position) aborts the whole
loader, carrying the state reached so far. -/
def prodLoad (oracle : Nat → Bool) : List PendingProduct → Nat → ProdState →
    Except ProdState ProdState
  | [], _, st => .ok st
  | r :: rs, i, st =>
    if oracle i then .error st
    else
      prodLoad oracle rs (i + 1)
        { rows := st.rows ++
            [⟨st.nextKey, r.product_name, r.category, r.price, r.stock_quantity⟩],
          nextKey := st.nextKey + 1,
          idMap := dictInsert st.idMap r.product_id st.nextKey,
          metrics := st.metrics.loaded 1 }

/-- Metrics recorded by `process_products` before its insert loop. -/
def prodPreMetrics (input : List RawProduct) : Metrics :=
  (((Metrics.init.read input.length).dup
      (input.length - (dedupProd input).length)).filled
      (prodNullStock input)).dropped "missing_price" (prodMissingPrice input)

/-- Models `process_products` over a storage table whose rows are `rows0` and
whose next auto-increment key is `key0`. -/
def process_products (input : List RawProduct) (rows0 : List ProductRow) (key0 : Nat)
    (oracle : Nat → Bool) : Except ProdState ProdState :=
  prodLoad oracle (prodSurvivors input) 0 ⟨rows0, key0, [], prodPreMetrics input⟩

/-! ### Sales aggregator (`process_sales`) -/

structure RawSale where
  transaction_id : Nat
  customer_id : String
  product_id : String
  quantity : Int
  unit_price : Rat
  transaction_date : Option String
deriving DecidableEq, Repr

/-- A sale row after Step 3: source ids resolved through the two identity
maps (`df['customer_id'].map(cust_map)` / `df['product_id'].map(prod_map)`). -/
structure MappedSale where
  transaction_id : Nat
  db_customer_id : Option Nat
  db_product_id : Option Nat
  quantity : Int
  unit_price : Rat
  transaction_date : Option String
deriving DecidableEq, Repr

/-- A sale row that survived orphan and date filtering. -/
structure ValidSale where
  transaction_id : Nat
  db_customer_id : Nat
  db_product_id : Nat
  quantity : Int
  unit_price : Rat
  order_date : String
deriving DecidableEq, Repr

def mapSale (cmap pmap : List (String × Nat)) (r : RawSale) : MappedSale :=
  { transaction_id := r.transaction_id,
    db_customer_id := cmap.lookup r.customer_id,
    db_product_id := pmap.lookup r.product_id,
    quantity := r.quantity, unit_price := r.unit_price,
    transaction_date := r.transaction_date }

/-- An orphan record: either parent reference failed to resolve. -/
def isOrphanM (r : MappedSale) : Bool :=
  r.db_customer_id.isNone || r.db_product_id.isNone

/-- Step 2: `df.drop_duplicates()` over fully identical rows. -/
def dedupSales (input : List RawSale) : List RawSale :=
  dedupBy (fun r => r) input

def mappedSales (cmap pmap : List (String × Nat)) (input : List RawSale) : List MappedSale :=
  (dedupSales input).map (mapSale cmap pmap)

/-- Rows counted as dropped with reason `orphan_record_missing_parent`. -/
def salesOrphanCount (cmap pmap : List (String × Nat)) (input : List RawSale) : Nat :=
  (mappedSales cmap pmap input).countP isOrphanM

/-- Step 4: keep only the rows with both references resolved. -/
def validMapped (cmap pmap : List (String × Nat)) (input : List RawSale) : List MappedSale :=
  (mappedSales cmap pmap input).filter (fun r => !(isOrphanM r))

/-- Step 5: the transaction-date column cleaned as one series. -/
def salesDateCol (cmap pmap : List (String × Nat)) (input : List RawSale) : List (Option Date) :=
  clean_date_series ((validMapped cmap pmap input).map (fun r => r.transaction_date))

/-- Rows counted as dropped with reason `invalid_transaction_date`. -/
def salesFailedDates (cmap pmap : List (String × Nat)) (input : List RawSale) : Nat :=
  (salesDateCol cmap pmap input).countP (fun d => d.isNone)

/-- The rows reaching the insert stage: dates rendered as `YYYY-MM-DD` text,
rows with an unparseable date removed (`order_date` is NOT NULL). -/
def finalSales (cmap pmap : List (String × Nat)) (input : List RawSale) : List ValidSale :=
  ((validMapped cmap pmap input).zip (salesDateCol cmap pmap input)).filterMap
    (fun p =>
      match p.1.db_customer_id, p.1.db_product_id, p.2 with
      | some c, some pr, some dt =>
        some ⟨p.1.transaction_id, c, pr, p.1.quantity, p.1.unit_price, fmtDate dt⟩
      | _, _, _ => none)

/-- One stored row of the `orders` table. -/
structure OrderRow where
  order_id : Nat
  customer_id : Nat
  order_date : String
  total_amount : Rat
  status : String
deriving DecidableEq, Repr

/-- One stored row of the `order_items` table. -/
structure OrderItemRow where
  order_id : Nat
  product_id : Nat
  quantity : Int
  unit_price : Rat
  subtotal : Rat
deriving DecidableEq, Repr

/-- State of the sales insert phase: the two stored tables, the next order
surrogate key, and the `items_loaded` counter. -/
structure SalesState where
  orders : List OrderRow
  items : List OrderItemRow
  nextOrderId : Nat
  itemsLoaded : Nat
deriving DecidableEq, Repr

/-- The rows of one transaction group, in source order (`groupby` preserves
the order of rows within each group). -/
def groupRows (valid : List ValidSale) (k : Nat) : List ValidSale :=
  valid.filter (fun r => r.transaction_id == k)

/-- `(group['quantity'] * group['unit_price']).sum()`. -/
def groupTotal (g : List ValidSale) : Rat :=
  g.foldl (fun a r => a + (r.quantity : Rat) * r.unit_price) 0

/-- The `item_rows` list built for one order. -/
def mkItemsList (oid : Nat) (g : List ValidSale) : List OrderItemRow :=
  g.map (fun r => ⟨oid, r.db_product_id, r.quantity, r.unit_price,
    (r.quantity : Rat) * r.unit_price⟩)

/-- The group keys in the order `groupby('transaction_id')` yields them:
distinct transaction ids, ascending. -/
def salesKeys (valid : List ValidSale) : List Nat :=
  List.insertionSort (fun a b => a ≤ b) ((valid.map (fun r => r.transaction_id)).dedup)

/-- Insert one order and its items: order-level fields come from the first row
of the group, the total is summed over the whole group. -/
def insertGroup (st : SalesState) (g : List ValidSale) : SalesState :=
  match g with
  | [] => st
  | g0 :: _ =>
    { orders := st.orders ++
        [⟨st.nextOrderId, g0.db_customer_id, g0.order_date, groupTotal g, "Completed"⟩],
      items := st.items ++ mkItemsList st.nextOrderId g,
      nextOrderId := st.nextOrderId + 1,
      itemsLoaded := st.itemsLoaded + (mkItemsList st.nextOrderId g).length }

/-- Step 6 without storage errors: every group inserted in key order. -/
def loadSales (valid : List ValidSale) (st0 : SalesState) : SalesState :=
  (salesKeys valid).foldl (fun st k => insertGroup st (groupRows valid k)) st0

/-- The item insert loop of one group; like the whole sales insert phase it
has no per-row handler, so an insert error (the environment bit for this
statement position) aborts everything. -/
def itemInsertsF (oracle : Nat → Bool) : List OrderItemRow → SalesState → Nat →
    Except (SalesState × Nat) (SalesState × Nat)
  | [], st, c => .ok (st, c)
  | it :: its, st, c =>
    if oracle c then .error (st, c)
    else itemInsertsF oracle its { st with items := st.items ++ [it] } (c + 1)

/-- One iteration of the order loop: insert the order row, then its items,
then add to `items_loaded`. -/
def groupInsertF (valid : List ValidSale) (oracle : Nat → Bool) (k : Nat) (st : SalesState)
    (c : Nat) : Except (SalesState × Nat) (SalesState × Nat) :=
  match groupRows valid k with
  | [] => .ok (st, c)
  | g0 :: _ =>
    if oracle c then .error (st, c)
    else
      let oid := st.nextOrderId
      let st1 := { st with
        orders := st.orders ++
          [⟨oid, g0.db_customer_id, g0.order_date, groupTotal (groupRows valid k), "Completed"⟩],
        nextOrderId := oid + 1 }
      match itemInsertsF oracle (mkItemsList oid (groupRows valid k)) st1 (c + 1) with
      | .error e => .error e
      | .ok (st2, c2) =>
        .ok ({ st2 with itemsLoaded := st2.itemsLoaded + (mkItemsList oid (groupRows valid k)).length }, c2)

/-- Step 6 with the error environment: orders processed in key order, aborting
at the first failing INSERT. -/
def salesLoadF (valid : List ValidSale) (oracle : Nat → Bool) : List Nat → SalesState → Nat →
    Except (SalesState × Nat) (SalesState × Nat)
  | [], st, c => .ok (st, c)
  | k :: ks, st, c =>
    match groupInsertF valid oracle k st c with
    | .error e => .error e
    | .ok (st1, c1) => salesLoadF valid oracle ks st1 c1

/-- Metrics recorded by `process_sales` before its insert loop. -/
def salesPreMetrics (cmap pmap : List (String × Nat)) (input : List RawSale) : Metrics :=
  let m := ((Metrics.init.read input.length).dup
      (input.length - (dedupSales input).length)).dropped "orphan_record_missing_parent"
      (salesOrphanCount cmap pmap input)
  if 0 < salesFailedDates cmap pmap input then
    m.dropped "invalid_transaction_date" (salesFailedDates cmap pmap input)
  else m

structure SalesResult where
  state : SalesState
  metrics : Metrics
deriving DecidableEq, Repr

/-- Models `process_sales`: deduplicate, resolve parents, drop orphans, clean
dates, drop unparseable dates, group into orders and items, and count the
inserted items as loaded.  An uncaught insert error aborts the loader before
`METRICS.loaded` runs, carrying the partial state. -/
def process_sales (input : List RawSale) (cmap pmap : List (String × Nat)) (st0 : SalesState)
    (oracle : Nat → Bool) : Except (SalesState × Nat × Metrics) SalesResult :=
  match salesLoadF (finalSales cmap pmap input) oracle
      (salesKeys (finalSales cmap pmap input)) st0 0 with
  | .error (st, c) => .error (st, c, salesPreMetrics cmap pmap input)
  | .ok (st, _) =>
    .ok ⟨st, (salesPreMetrics cmap pmap input).loaded (st.itemsLoaded - st0.itemsLoaded)⟩

/-! ### Derived shapes used to state the structural theorems -/

/-- The product rows the insert loop appends, with consecutive surrogate keys. -/
def buildProdRows (k : Nat) : List PendingProduct → List ProductRow
  | [] => []
  | r :: rs =>
    ⟨k, r.product_name, r.category, r.price, r.stock_quantity⟩ :: buildProdRows (k + 1) rs

/-- The product identity map after inserting `rs` starting at key `k`. -/
def prodIdMapAcc (m : List (String × Nat)) (k : Nat) : List PendingProduct → List (String × Nat)
  | [] => m
  | r :: rs => prodIdMapAcc (dictInsert m r.product_id k) (k + 1) rs

/-- The order row inserted for group key `k` when the next surrogate is `oid`. -/
def mkOrder (valid : List ValidSale) (oid k : Nat) : OrderRow :=
  match groupRows valid k with
  | [] => ⟨oid, 0, "", 0, "Completed"⟩
  | g0 :: _ => ⟨oid, g0.db_customer_id, g0.order_date, groupTotal (groupRows valid k), "Completed"⟩

/-- The orders appended for the given group keys, in key order. -/
def expOrders (valid : List ValidSale) (oid : Nat) : List Nat → List OrderRow
  | [] => []
  | k :: ks => mkOrder valid oid k :: expOrders valid (oid + 1) ks

/-- The order items appended for the given group keys: one block per group,
rows of a group in source order. -/
def expItems (valid : List ValidSale) (oid : Nat) : List Nat → List OrderItemRow
  | [] => []
  | k :: ks => mkItemsList oid (groupRows valid k) ++ expItems valid (oid + 1) ks

/-! ### Lemmas about deduplication and counting -/

theorem dedupByKey_length_le {α κ : Type} [DecidableEq κ] (key : α → κ) :
    ∀ (l : List α) (seen : List κ), (dedupByKey key l seen).length ≤ l.length
  | [], _ => Nat.le_refl _
  | x :: xs, seen => by
    simp only [dedupByKey]
    split
    · exact Nat.le_trans (dedupByKey_length_le key xs seen) (Nat.le_succ _)
    · simpa using dedupByKey_length_le key xs _

theorem dedupBy_length_le {α κ : Type} [DecidableEq κ] (key : α → κ) (l : List α) :
    (dedupBy key l).length ≤ l.length :=
  dedupByKey_length_le key l []

theorem dedupByKey_countP_key {α κ : Type} [DecidableEq κ] (key : α → κ) (k : κ) :
    ∀ (l : List α) (seen : List κ),
      (dedupByKey key l seen).countP (fun x => decide (key x = k)) =
        if k ∈ seen then 0 else if l.any (fun x => decide (key x = k)) then 1 else 0
  | [], seen => by simp [dedupByKey]
  | x :: xs, seen => by
    simp only [dedupByKey]
    by_cases hx : key x ∈ seen
    · rw [if_pos hx, dedupByKey_countP_key key k xs seen]
      by_cases hk : k ∈ seen
      · simp [hk]
      · have hne : ¬key x = k := by
          intro he
          exact hk (he ▸ hx)
        simp [hk, List.any_cons, hne]
    · rw [if_neg hx]
      rw [List.countP_cons, dedupByKey_countP_key key k xs (key x :: seen)]
      by_cases he : key x = k
      · have hk : ¬k ∈ seen := fun hs => hx (he ▸ hs)
        simp [he, hk, List.any_cons]
      · have hkx : ¬k = key x := fun h => he h.symm
        by_cases hk : k ∈ seen
        · simp [hk, hkx, he, List.any_cons]
        · simp [hk, hkx, he, List.any_cons]

theorem countP_filter_not {α : Type} (p : α → Bool) :
    ∀ l : List α, l.countP p + (l.filter (fun a => !(p a))).length = l.length
  | [] => rfl
  | x :: l => by
    have ih := countP_filter_not p l
    rw [List.countP_cons, List.filter_cons]
    cases h : p x <;> simp only [h, Bool.not_false, Bool.not_true, Bool.false_eq_true,
      if_true, if_false, List.length_cons] <;> omega

/-! ### Lemmas about the metrics tracker -/

theorem reasonCount_init (r : String) : Metrics.init.reasonCount r = 0 := rfl

theorem reasonCount_read (m : Metrics) (n : Nat) (r : String) :
    (m.read n).reasonCount r = m.reasonCount r := rfl

theorem reasonCount_dup (m : Metrics) (n : Nat) (r : String) :
    (m.dup n).reasonCount r = m.reasonCount r := rfl

theorem reasonCount_filled (m : Metrics) (n : Nat) (r : String) :
    (m.filled n).reasonCount r = m.reasonCount r := rfl

theorem reasonCount_loaded (m : Metrics) (n : Nat) (r : String) :
    (m.loaded n).reasonCount r = m.reasonCount r := rfl

theorem foldl_add_snd (a : Nat) : ∀ l : List (String × Nat),
    l.foldl (fun acc p => acc + p.2) a = a + l.foldl (fun acc p => acc + p.2) 0
  | [] => by simp
  | p :: l => by
    simp only [List.foldl_cons]
    rw [foldl_add_snd (a + p.2) l, foldl_add_snd (0 + p.2) l]
    omega

theorem reasonCount_dropped (m : Metrics) (reason : String) (n : Nat) (r : String) :
    (m.dropped reason n).reasonCount r =
      m.reasonCount r + (if reason == r then n else 0) := by
  unfold Metrics.dropped Metrics.reasonCount
  simp only [List.filter_append, List.foldl_append, List.filter_cons, List.filter_nil]
  cases h : (reason == r)
  · simp [h]
  · simp [h]

/-! ### C2: the phone normalizer and its output pattern -/

/-- C2: the claim that every `clean_phone` output is either null or matches
the pattern `"+91-"` followed by exactly 10 digits fails on the code for a
negative input: the Python rendering `str(int(float("-123456789")))` is the
10-character string `"-123456789"`, so the code emits `"+91--123456789"`,
which contains a minus sign and only 9 digits after the prefix instead of the
null the claim requires for a 9-digit value. -/
theorem clean_phone_negative_breaks_pattern :
    clean_phone (PhoneRaw.val (-123456789)) = some "+91--123456789" ∧
    isPhonePattern "+91--123456789" = false := by
  constructor
  · decide
  · decide

/-! ### Lemmas about digits, formatting and the date parsers -/

theorem digitChar_isDigit {d : Nat} (h : d < 10) : (digitChar d).isDigit = true := by
  interval_cases d <;> decide

theorem digitVal_digitChar {d : Nat} (h : d < 10) : digitVal (digitChar d) = d := by
  interval_cases d <;> decide

theorem isDigit_ne_dash {c : Char} (h : c.isDigit = true) : c ≠ '-' := by
  intro he
  subst he
  exact absurd h (by decide)

theorem isDigit_ne_slash {c : Char} (h : c.isDigit = true) : c ≠ '/' := by
  intro he
  subst he
  exact absurd h (by decide)

theorem natDigits_all_digit (n : Nat) : ∀ c ∈ natDigits n, c.isDigit = true := by
  intro c hc
  simp only [natDigits, List.mem_map, List.mem_reverse] at hc
  obtain ⟨d, hd, rfl⟩ := hc
  exact digitChar_isDigit (Nat.digits_lt_base (by norm_num) hd)

theorem padZero_all_digit {w : Nat} {cs : List Char} (h : ∀ c ∈ cs, c.isDigit = true) :
    ∀ c ∈ padZero w cs, c.isDigit = true := by
  intro c hc
  simp only [padZero, List.mem_append, List.mem_replicate] at hc
  rcases hc with ⟨-, rfl⟩ | hc
  · decide
  · exact h c hc

theorem padZero_length {w : Nat} {cs : List Char} (h : cs.length ≤ w) :
    (padZero w cs).length = w := by
  simp only [padZero, List.length_append, List.length_replicate]
  omega

theorem natDigits_length_le {n k : Nat} (h : n < 10 ^ k) : (natDigits n).length ≤ k := by
  rcases Nat.eq_zero_or_pos n with rfl | hn
  · simp [natDigits]
  · have hlen := Nat.digits_len 10 n (by norm_num) (Nat.pos_iff_ne_zero.mp hn)
    have hlog : Nat.log 10 n < k := Nat.log_lt_of_lt_pow (Nat.pos_iff_ne_zero.mp hn) h
    simp only [natDigits, List.length_map, List.length_reverse, hlen]
    omega

theorem splitSep_no_sep {sep : Char} : ∀ {cs : List Char}, sep ∉ cs → splitSep sep cs = [cs]
  | [], _ => rfl
  | c :: cs, h => by
    have hc : ¬c = sep := by
      intro hh
      apply h
      rw [hh]
      exact List.mem_cons_self _ _
    have hcs : sep ∉ cs := fun hh => h (List.mem_cons_of_mem c hh)
    have ih := splitSep_no_sep hcs
    simp only [splitSep, if_neg hc, ih]

theorem splitSep_append {sep : Char} : ∀ {A : List Char} (rest : List Char), sep ∉ A →
    splitSep sep (A ++ sep :: rest) = A :: splitSep sep rest
  | [], rest, _ => by simp [splitSep]
  | a :: A, rest, h => by
    have ha : ¬a = sep := by
      intro hh
      apply h
      rw [hh]
      exact List.mem_cons_self _ _
    have hA : sep ∉ A := fun hh => h (List.mem_cons_of_mem a hh)
    have ih := splitSep_append (A := A) rest hA
    simp only [List.cons_append, splitSep, List.append_eq, if_neg ha, ih]

theorem foldl_digitChar (L : List Nat) (hL : ∀ x ∈ L, x < 10) : ∀ a : Nat,
    ((L.reverse.map digitChar).foldl (fun acc c => 10 * acc + digitVal c) a) =
      a * 10 ^ L.length + Nat.ofDigits 10 L := by
  induction L with
  | nil => intro a; simp
  | cons d L ih =>
    intro a
    have hd : d < 10 := hL d (by simp)
    have hL' : ∀ x ∈ L, x < 10 := fun x hx => hL x (by simp [hx])
    simp only [List.reverse_cons, List.map_append, List.foldl_append, List.map_cons,
      List.map_nil, List.foldl_cons, List.foldl_nil, ih hL', digitVal_digitChar hd,
      Nat.ofDigits_cons, List.length_cons]
    ring

theorem foldl_pad_zeros (k : Nat) (cs : List Char) :
    (List.replicate k '0' ++ cs).foldl (fun acc c => 10 * acc + digitVal c) 0 =
      cs.foldl (fun acc c => 10 * acc + digitVal c) 0 := by
  induction k with
  | zero => rfl
  | succ k ih => simpa [List.replicate_succ, List.foldl_cons, digitVal] using ih

theorem parseDigits_pad (w n : Nat) (hw : 0 < w) :
    parseDigits (padZero w (natDigits n)) = some n := by
  have hdig : ∀ c ∈ padZero w (natDigits n), c.isDigit = true :=
    padZero_all_digit (natDigits_all_digit n)
  have hne : (padZero w (natDigits n)).isEmpty = false := by
    have : (padZero w (natDigits n)).length ≠ 0 := by
      simp only [padZero, List.length_append, List.length_replicate]
      omega
    cases he : (padZero w (natDigits n)) with
    | nil => exact absurd (by simp [he]) this
    | cons a l => simp [he]
  unfold parseDigits
  rw [hne]
  simp only [Bool.not_false, Bool.true_and]
  rw [if_pos (by exact List.all_eq_true.mpr hdig)]
  congr 1
  unfold padZero natDigits
  rw [foldl_pad_zeros]
  rw [foldl_digitChar (Nat.digits 10 n) (fun x hx => Nat.digits_lt_base (by norm_num) hx) 0]
  simp [Nat.ofDigits_digits]

theorem daysInMonth_le (y m : Nat) : daysInMonth y m ≤ 31 := by
  unfold daysInMonth
  split
  · split <;> omega
  · split <;> omega

theorem validDate_fields {d : Date} (h : validDate d = true) :
    1 ≤ d.month ∧ d.month ≤ 12 ∧ 1 ≤ d.day ∧ d.day ≤ 31 ∧
      1677 ≤ d.year ∧ d.year ≤ 2262 := by
  have hdm := daysInMonth_le d.year d.month
  simp only [validDate, inTimestampBounds, dateCode, Bool.and_eq_true,
    decide_eq_true_eq] at h
  omega

theorem parseYmd_fmtDate {d : Date} (h : validDate d = true) :
    parseYmd (fmtDate d) = some d := by
  obtain ⟨h1, h2, h3, h4, h5, h6⟩ := validDate_fields h
  have hy : ∀ c ∈ padZero 4 (natDigits d.year), c.isDigit = true :=
    padZero_all_digit (natDigits_all_digit _)
  have hm : ∀ c ∈ padZero 2 (natDigits d.month), c.isDigit = true :=
    padZero_all_digit (natDigits_all_digit _)
  have hd : ∀ c ∈ padZero 2 (natDigits d.day), c.isDigit = true :=
    padZero_all_digit (natDigits_all_digit _)
  have hyd : '-' ∉ padZero 4 (natDigits d.year) := fun hc => isDigit_ne_dash (hy '-' hc) rfl
  have hmd : '-' ∉ padZero 2 (natDigits d.month) := fun hc => isDigit_ne_dash (hm '-' hc) rfl
  have hdd : '-' ∉ padZero 2 (natDigits d.day) := fun hc => isDigit_ne_dash (hd '-' hc) rfl
  have hylen : (padZero 4 (natDigits d.year)).length = 4 :=
    padZero_length (natDigits_length_le (show d.year < 10 ^ 4 by norm_num; omega))
  have hmlen : (padZero 2 (natDigits d.month)).length = 2 :=
    padZero_length (natDigits_length_le (show d.month < 10 ^ 2 by norm_num; omega))
  have hdlen : (padZero 2 (natDigits d.day)).length = 2 :=
    padZero_length (natDigits_length_le (show d.day < 10 ^ 2 by norm_num; omega))
  have hyv : parseYearField (padZero 4 (natDigits d.year)) = some d.year := by
    unfold parseYearField
    rw [if_pos (by simp [hylen])]
    exact parseDigits_pad 4 d.year (by norm_num)
  have hmv : parseField2 12 (padZero 2 (natDigits d.month)) = some d.month := by
    unfold parseField2
    rw [if_pos (by simp [hmlen])]
    simp only [parseDigits_pad 2 d.month (by norm_num)]
    rw [if_pos (by simp only [Bool.and_eq_true, decide_eq_true_eq]; exact ⟨h1, h2⟩)]
  have hdv : parseField2 31 (padZero 2 (natDigits d.day)) = some d.day := by
    unfold parseField2
    rw [if_pos (by simp [hdlen])]
    simp only [parseDigits_pad 2 d.day (by norm_num)]
    rw [if_pos (by simp only [Bool.and_eq_true, decide_eq_true_eq]; exact ⟨h3, h4⟩)]
  have htl : (fmtDate d).toList =
      padZero 4 (natDigits d.year) ++
        '-' :: (padZero 2 (natDigits d.month) ++ '-' :: padZero 2 (natDigits d.day)) := rfl
  unfold parseYmd
  rw [htl, splitSep_append _ hyd, splitSep_append _ hmd, splitSep_no_sep hdd]
  simp only [hyv, hmv, hdv]
  have h' : validDate ⟨d.year, d.month, d.day⟩ = true := h
  unfold checkDate
  rw [if_pos h']

theorem parse_date_fmtDate {d : Date} (h : validDate d = true) :
    parse_date (fmtDate d) = some d := by
  unfold parse_date
  rw [parseYmd_fmtDate h]

theorem checkDate_valid {y m dd : Nat} {d : Date} (h : checkDate y m dd = some d) :
    validDate d = true := by
  unfold checkDate at h
  split at h
  · cases h
    assumption
  · cases h

theorem parseYmd_valid {s : String} {d : Date} (h : parseYmd s = some d) :
    validDate d = true := by
  unfold parseYmd at h
  split at h
  · split at h
    · exact checkDate_valid h
    · cases h
  · cases h

theorem parseDmySlash_valid {s : String} {d : Date} (h : parseDmySlash s = some d) :
    validDate d = true := by
  unfold parseDmySlash at h
  split at h
  · split at h
    · exact checkDate_valid h
    · cases h
  · cases h

theorem parseMdyDash_valid {s : String} {d : Date} (h : parseMdyDash s = some d) :
    validDate d = true := by
  unfold parseMdyDash at h
  split at h
  · split at h
    · exact checkDate_valid h
    · cases h
  · cases h

theorem parseMdySlash_valid {s : String} {d : Date} (h : parseMdySlash s = some d) :
    validDate d = true := by
  unfold parseMdySlash at h
  split at h
  · split at h
    · exact checkDate_valid h
    · cases h
  · cases h

theorem parse_date_valid {s : String} {d : Date} (h : parse_date s = some d) :
    validDate d = true := by
  unfold parse_date at h
  split at h
  · cases h
    exact parseYmd_valid (by assumption)
  · split at h
    · cases h
      exact parseDmySlash_valid (by assumption)
    · split at h
      · cases h
        exact parseMdyDash_valid (by assumption)
      · exact parseMdySlash_valid h

theorem parse_date_none {s : String} :
    parse_date s = none ↔
      parseYmd s = none ∧ parseDmySlash s = none ∧ parseMdyDash s = none ∧
        parseMdySlash s = none := by
  unfold parse_date
  cases h1 : parseYmd s <;> cases h2 : parseDmySlash s <;> cases h3 : parseMdyDash s <;>
    cases h4 : parseMdySlash s <;> simp

/-- The masking pipeline of `clean_date_series` applies the four formats to
every entry independently, first success winning. -/
theorem clean_date_series_eq_map (src : List (Option String)) :
    clean_date_series src = src.map (fun x => Option.bind x parse_date) := by
  induction src with
  | nil => rfl
  | cons x xs ih =>
    have hstep : clean_date_series (x :: xs) =
        (match Option.bind x parseYmd with
          | some v => some v
          | none => match Option.bind x parseDmySlash with
            | some v => some v
            | none => match Option.bind x parseMdyDash with
              | some v => some v
              | none => Option.bind x parseMdySlash) :: clean_date_series xs := by
      unfold clean_date_series fillNaT
      simp only [List.map_cons, List.zipWith_cons_cons]
      cases hx1 : Option.bind x parseYmd <;> cases hx2 : Option.bind x parseDmySlash <;>
        cases hx3 : Option.bind x parseMdyDash <;> simp
    rw [hstep, ih]
    simp only [List.map_cons, List.cons.injEq, and_true]
    cases x with
    | none => rfl
    | some s =>
      simp only [Option.some_bind]
      unfold parse_date
      cases parseYmd s <;> cases parseDmySlash s <;> cases parseMdyDash s <;> simp

/-- C5: for every sequence of raw date entries, `clean_date_series` returns a
sequence of the same length whose entries correspond position by position to
the input (entry `i` is the first-success parse of input entry `i`), every
non-null output is a valid calendar date, it is a total function (never
throws), and an entry is null exactly when all four format attempts — ISO
year-month-day, day/month/year, month-day-year hyphenated, and month/day/year
slash-separated, tried in that order — fail on it. -/
theorem clean_date_series_total (src : List (Option String)) :
    (clean_date_series src).length = src.length ∧
    clean_date_series src = src.map (fun x => Option.bind x parse_date) ∧
    (∀ o ∈ clean_date_series src, ∀ d : Date, o = some d → validDate d = true) ∧
    (∀ s : String, parse_date s = none ↔
      parseYmd s = none ∧ parseDmySlash s = none ∧ parseMdyDash s = none ∧
        parseMdySlash s = none) := by
  refine ⟨?_, clean_date_series_eq_map src, ?_, fun s => parse_date_none⟩
  · rw [clean_date_series_eq_map]
    exact List.length_map src _
  · intro o ho d hd
    rw [clean_date_series_eq_map] at ho
    obtain ⟨x, -, hx⟩ := List.mem_map.mp ho
    subst hd
    cases x with
    | none => cases hx
    | some s => exact parse_date_valid (by simpa using hx)

/-- C5 witness: the properties evaluated on a concrete mixed-format column. -/
theorem clean_date_series_total_witness :
    (clean_date_series [some "2024-01-15", some "15/01/2024", some "garbage", none]).length = 4 ∧
    validDate (Date.mk 2024 1 15) = true ∧
    (parse_date "garbage" = none ↔
      parseYmd "garbage" = none ∧ parseDmySlash "garbage" = none ∧
        parseMdyDash "garbage" = none ∧ parseMdySlash "garbage" = none) := by
  have h := clean_date_series_total [some "2024-01-15", some "15/01/2024", some "garbage", none]
  refine ⟨h.1, ?_, h.2.2.2 "garbage"⟩
  exact h.2.2.1 (some (Date.mk 2024 1 15)) (by decide) (Date.mk 2024 1 15) rfl

/-- C6: normalizing an already-normalized date string gives back the same
calendar date: for every parseable date `d`, the normalized rendering
`d.strftime('%Y-%m-%d')` parses under the first format attempt to exactly
`d`, both entry-wise and through the whole series pipeline. -/
theorem date_normalizer_idempotent (d : Date) (h : validDate d = true) :
    parse_date (fmtDate d) = some d ∧
    clean_date_series [some (fmtDate d)] = [some d] := by
  refine ⟨parse_date_fmtDate h, ?_⟩
  rw [clean_date_series_eq_map]
  simp [parse_date_fmtDate h]

/-- C6 witness: idempotence evaluated at 2024-01-15. -/
theorem date_normalizer_idempotent_witness :
    validDate (Date.mk 2024 1 15) = true ∧
    parse_date (fmtDate (Date.mk 2024 1 15)) = some (Date.mk 2024 1 15) ∧
    clean_date_series [some (fmtDate (Date.mk 2024 1 15))] = [some (Date.mk 2024 1 15)] := by
  have h := date_normalizer_idempotent (Date.mk 2024 1 15) (by decide)
  exact ⟨by decide, h.1, h.2⟩

/-! ### Lemmas about the customer loader -/

theorem zipWith_map_self {α β γ : Type} (F : α → β → γ) (G : α → β) :
    ∀ l : List α, List.zipWith F l (l.map G) = l.map (fun a => F a (G a))
  | [] => rfl
  | a :: l => by
    simp only [List.map_cons, List.zipWith_cons_cons, zipWith_map_self F G l]

theorem transformCustomers_eq_map (l : List RawCustomer) :
    transformCustomers l = l.map transformCustomer := by
  unfold transformCustomers
  rw [clean_date_series_eq_map, List.map_map, zipWith_map_self]
  rfl

/-- C1 counterexample: on a fresh store, for input rows with source ids `C1`
and `C2` sharing one email, the loader stores exactly one Customer row but the
second source id has NO entry in the returned IdentityMap: email
deduplication removes the second row before the insert loop ever sees it, so
the claim that both source ids map to the same surrogate key is false. -/
theorem customer_dup_email_counterexample :
    (process_customers
        [⟨"C1", some "Asha", some "Rao", some "a@x.com", PhoneRaw.missing, none, none⟩,
         ⟨"C2", some "Bela", some "Sen", some "a@x.com", PhoneRaw.missing, none, none⟩]
        CustDB.empty (fun _ => false)).db.rows.length = 1 ∧
    (process_customers
        [⟨"C1", some "Asha", some "Rao", some "a@x.com", PhoneRaw.missing, none, none⟩,
         ⟨"C2", some "Bela", some "Sen", some "a@x.com", PhoneRaw.missing, none, none⟩]
        CustDB.empty (fun _ => false)).idMap.lookup "C2" = none ∧
    ¬∃ k : Nat,
      (process_customers
          [⟨"C1", some "Asha", some "Rao", some "a@x.com", PhoneRaw.missing, none, none⟩,
           ⟨"C2", some "Bela", some "Sen", some "a@x.com", PhoneRaw.missing, none, none⟩]
          CustDB.empty (fun _ => false)).idMap.lookup "C1" = some k ∧
      (process_customers
          [⟨"C1", some "Asha", some "Rao", some "a@x.com", PhoneRaw.missing, none, none⟩,
           ⟨"C2", some "Bela", some "Sen", some "a@x.com", PhoneRaw.missing, none, none⟩]
          CustDB.empty (fun _ => false)).idMap.lookup "C2" = some k := by
  refine ⟨by decide, by decide, ?_⟩
  rintro ⟨k, -, hk2⟩
  have hC2 : (process_customers
      [⟨"C1", some "Asha", some "Rao", some "a@x.com", PhoneRaw.missing, none, none⟩,
       ⟨"C2", some "Bela", some "Sen", some "a@x.com", PhoneRaw.missing, none, none⟩]
      CustDB.empty (fun _ => false)).idMap.lookup "C2" = none := by decide
  rw [hC2] at hk2
  cases hk2

/-- C1 as amended: on a fresh store, two input rows with identical (present)
email and distinct source ids yield exactly one stored Customer row; the first
row's source id maps to the new surrogate key, while the second row is removed
by email deduplication before the insert loop and its source id gets no entry
in the IdentityMap (the duplicate-email insert fallback only resolves emails
already present in storage when the run starts). -/
theorem customer_dup_email_amended (r1 r2 : RawCustomer) (e : String)
    (h1 : r1.email = some e) (h2 : r2.email = some e)
    (hid : r1.customer_id ≠ r2.customer_id) :
    (process_customers [r1, r2] CustDB.empty (fun _ => false)).db.rows.length = 1 ∧
    (process_customers [r1, r2] CustDB.empty (fun _ => false)).idMap.lookup r1.customer_id =
      some 1 ∧
    (process_customers [r1, r2] CustDB.empty (fun _ => false)).idMap.lookup r2.customer_id =
      none := by
  have hdedup : dedupCust [r1, r2] = [r1] := by
    unfold dedupCust dedupBy
    simp [dedupByKey, h1, h2]
  have hsurv : custSurvivors [r1, r2] = [r1] := by
    unfold custSurvivors
    rw [hdedup]
    simp [h1]
  have hpend : transformCustomers (custSurvivors [r1, r2]) = [transformCustomer r1] := by
    rw [hsurv, transformCustomers_eq_map]
    rfl
  have hmail : emailExists CustDB.empty (transformCustomer r1).email = false := rfl
  have hload : custLoadZ ⟨CustDB.empty, [], 0, []⟩ [(transformCustomer r1, false)] =
      ⟨⟨[⟨1, r1.first_name, r1.last_name, r1.email, clean_phone r1.phone, r1.city,
           Option.map fmtDate (Option.bind r1.registration_date parse_date)⟩], 2⟩,
        [(r1.customer_id, 1)], 1, []⟩ := by
    unfold custLoadZ
    simp only [List.foldl_cons, List.foldl_nil]
    unfold custStep
    simp only [Bool.false_eq_true, if_false, hmail, dictInsert, List.filter_nil]
    rfl
  unfold process_customers
  simp only [hpend]
  rw [show (List.range [transformCustomer r1].length).map (fun _ => false) = [false] from rfl]
  rw [show [transformCustomer r1].zip [false] = [(transformCustomer r1, false)] from rfl]
  rw [hload]
  refine ⟨rfl, ?_, ?_⟩
  · simp [List.lookup]
  · simp only [List.lookup]
    have hne : (r2.customer_id == r1.customer_id) = false := by
      simp only [beq_eq_false_iff_ne, ne_eq]
      exact fun hh => hid hh.symm
    rw [hne]

/-- C1 amended witness: the amended statement evaluated on two concrete rows
sharing an email. -/
theorem customer_dup_email_amended_witness :
    (process_customers
        [⟨"C7", some "Asha", some "Rao", some "b@y.com", PhoneRaw.missing, none, none⟩,
         ⟨"C8", some "Bela", some "Sen", some "b@y.com", PhoneRaw.missing, none, none⟩]
        CustDB.empty (fun _ => false)).db.rows.length = 1 ∧
    (process_customers
        [⟨"C7", some "Asha", some "Rao", some "b@y.com", PhoneRaw.missing, none, none⟩,
         ⟨"C8", some "Bela", some "Sen", some "b@y.com", PhoneRaw.missing, none, none⟩]
        CustDB.empty (fun _ => false)).idMap.lookup "C7" = some 1 ∧
    (process_customers
        [⟨"C7", some "Asha", some "Rao", some "b@y.com", PhoneRaw.missing, none, none⟩,
         ⟨"C8", some "Bela", some "Sen", some "b@y.com", PhoneRaw.missing, none, none⟩]
        CustDB.empty (fun _ => false)).idMap.lookup "C8" = none :=
  customer_dup_email_amended
    ⟨"C7", some "Asha", some "Rao", some "b@y.com", PhoneRaw.missing, none, none⟩
    ⟨"C8", some "Bela", some "Sen", some "b@y.com", PhoneRaw.missing, none, none⟩
    "b@y.com" rfl rfl (by decide)

/-- C10: however many input rows lack an email, at most one row per run is
dropped under `missing_email` — email deduplication treats all missing-email
rows as duplicates of one another, so only the single surviving missing-email
row (when the input has any) is dropped under that reason. -/
theorem missing_email_dropped_at_most_once (input : List RawCustomer) (db0 : CustDB)
    (oracle : Nat → Bool) :
    (process_customers input db0 oracle).metrics.reasonCount "missing_email" =
      (if ∃ r ∈ input, r.email = none then 1 else 0) ∧
    (process_customers input db0 oracle).metrics.reasonCount "missing_email" ≤ 1 := by
  have hmetric : (process_customers input db0 oracle).metrics.reasonCount "missing_email" =
      custMissing input := by
    unfold process_customers
    simp only [reasonCount_loaded]
    split
    · rw [reasonCount_filled, reasonCount_dropped, reasonCount_dup, reasonCount_read,
        reasonCount_init]
      simp
    · rw [reasonCount_dropped, reasonCount_dup, reasonCount_read, reasonCount_init]
      simp
  have hswap : custMissing input =
      List.countP (fun r : RawCustomer => decide (r.email = none))
        (dedupByKey (fun r : RawCustomer => r.email) input []) := by
    unfold custMissing dedupCust dedupBy
    apply List.countP_congr
    intro a _
    cases ha : a.email <;> simp [ha]
  have hcount := dedupByKey_countP_key (fun r : RawCustomer => r.email) none input []
  rw [hmetric, hswap, hcount]
  constructor
  · simp
  · simp only [List.not_mem_nil, if_false]
    split <;> simp

theorem custStep_loadedCount (st : CustState) (p : PendingCustomer × Bool) :
    (custStep st p).loadedCount ≤ st.loadedCount + 1 := by
  by_cases hp : p.2 = true
  · simp [custStep, hp]
  · by_cases hm : emailExists st.db p.1.email = true
    · cases hf : st.db.rows.find? (fun c => c.email == p.1.email) with
      | none =>
        simp [custStep, hp, hm, hf]
      | some c =>
        simp [custStep, hp, hm, hf]
    · simp [custStep, hp, hm]

theorem custLoadZ_loaded_le : ∀ (l : List (PendingCustomer × Bool)) (st : CustState),
    (custLoadZ st l).loadedCount ≤ st.loadedCount + l.length
  | [], st => Nat.le_refl _
  | p :: l, st => by
    have h1 := custStep_loadedCount st p
    have h2 := custLoadZ_loaded_le l (custStep st p)
    unfold custLoadZ at h2
    unfold custLoadZ
    simp only [List.foldl_cons, List.length_cons]
    omega

theorem custStep_log_split (db : CustDB) (idMap : List (String × Nat)) (n : Nat)
    (L : List String) (p : PendingCustomer × Bool) :
    custStep ⟨db, idMap, n, L⟩ p =
      { custStep ⟨db, idMap, n, []⟩ p with
        log := L ++ (custStep ⟨db, idMap, n, []⟩ p).log } := by
  by_cases hp : p.2 = true
  · simp [custStep, hp]
  · by_cases hm : emailExists db p.1.email = true
    · cases hf : db.rows.find? (fun c => c.email == p.1.email) with
      | none => simp [custStep, hp, hm, hf]
      | some c => simp [custStep, hp, hm, hf]
    · simp [custStep, hp, hm]

theorem custLoadZ_log_split : ∀ (l : List (PendingCustomer × Bool)) (db : CustDB)
    (idMap : List (String × Nat)) (n : Nat) (L : List String),
    custLoadZ ⟨db, idMap, n, L⟩ l =
      { custLoadZ ⟨db, idMap, n, []⟩ l with
        log := L ++ (custLoadZ ⟨db, idMap, n, []⟩ l).log }
  | [], db, m, n, L => by simp [custLoadZ]
  | p :: l, db, m, n, L => by
    unfold custLoadZ
    simp only [List.foldl_cons]
    rw [custStep_log_split db m n L p]
    rcases hstep : custStep ⟨db, m, n, []⟩ p with ⟨db', m', n', lg⟩
    have ih1 := custLoadZ_log_split l db' m' n' (L ++ lg)
    have ih2 := custLoadZ_log_split l db' m' n' lg
    unfold custLoadZ at ih1 ih2
    show List.foldl custStep ⟨db', m', n', L ++ lg⟩ l =
      { List.foldl custStep ⟨db', m', n', lg⟩ l with
        log := L ++ (List.foldl custStep ⟨db', m', n', lg⟩ l).log }
    rw [ih1, ih2]
    simp

/-- The insert loop skips a row whose INSERT raised an unanticipated error:
the run over `pre ++ (r, true) :: post` reaches the same stored rows, identity
map and loaded count as the run over `pre ++ post`, with exactly one extra log
entry. -/
theorem custLoadZ_skip (db0 : CustDB) (pre post : List (PendingCustomer × Bool))
    (r : PendingCustomer) :
    (custLoadZ ⟨db0, [], 0, []⟩ (pre ++ (r, true) :: post)).db =
      (custLoadZ ⟨db0, [], 0, []⟩ (pre ++ post)).db ∧
    (custLoadZ ⟨db0, [], 0, []⟩ (pre ++ (r, true) :: post)).idMap =
      (custLoadZ ⟨db0, [], 0, []⟩ (pre ++ post)).idMap ∧
    (custLoadZ ⟨db0, [], 0, []⟩ (pre ++ (r, true) :: post)).loadedCount =
      (custLoadZ ⟨db0, [], 0, []⟩ (pre ++ post)).loadedCount ∧
    (custLoadZ ⟨db0, [], 0, []⟩ (pre ++ (r, true) :: post)).log.length =
      (custLoadZ ⟨db0, [], 0, []⟩ (pre ++ post)).log.length + 1 := by
  unfold custLoadZ
  rw [List.foldl_append, List.foldl_append, List.foldl_cons]
  rcases hmid : List.foldl custStep ⟨db0, [], 0, []⟩ pre with ⟨db1, m1, n1, L1⟩
  have hstep : custStep ⟨db1, m1, n1, L1⟩ (r, true) =
      ⟨db1, m1, n1, L1 ++ ["Error loading customer"]⟩ := rfl
  rw [hstep]
  have h1 := custLoadZ_log_split post db1 m1 n1 (L1 ++ ["Error loading customer"])
  have h2 := custLoadZ_log_split post db1 m1 n1 L1
  unfold custLoadZ at h1 h2
  rw [h1, h2]
  simp
  omega

/-! ### Lemmas about the product loader -/

theorem prodLoad_noFail : ∀ (rs : List PendingProduct) (i : Nat) (st : ProdState),
    prodLoad (fun _ => false) rs i st =
      .ok ⟨st.rows ++ buildProdRows st.nextKey rs, st.nextKey + rs.length,
           prodIdMapAcc st.idMap st.nextKey rs,
           { st.metrics with records_loaded := st.metrics.records_loaded + rs.length }⟩
  | [], i, st => by
    simp [prodLoad, buildProdRows, prodIdMapAcc]
  | r :: rs, i, st => by
    unfold prodLoad
    simp only [Bool.false_eq_true, if_false]
    rw [prodLoad_noFail rs (i + 1) _]
    simp only [buildProdRows, prodIdMapAcc, Metrics.loaded, Except.ok.injEq,
      ProdState.mk.injEq, Metrics.mk.injEq, List.append_assoc, List.cons_append,
      List.nil_append, List.length_cons]
    and_intros <;> first
      | rfl
      | trivial
      | omega

theorem mem_buildProdRows : ∀ (rs : List PendingProduct) (k0 : Nat) (p : PendingProduct),
    p ∈ rs →
    ∃ k, (⟨k, p.product_name, p.category, p.price, p.stock_quantity⟩ : ProductRow) ∈
      buildProdRows k0 rs
  | [], _, p, hp => absurd hp (List.not_mem_nil p)
  | r :: rs, k0, p, hp => by
    rcases List.mem_cons.mp hp with he | hp'
    · subst he
      exact ⟨k0, by simp [buildProdRows]⟩
    · obtain ⟨k, hk⟩ := mem_buildProdRows rs (k0 + 1) p hp'
      exact ⟨k, by simp [buildProdRows, hk]⟩

theorem prodLoad_ok_counts (oracle : Nat → Bool) : ∀ (rs : List PendingProduct) (i : Nat)
    (st st' : ProdState), prodLoad oracle rs i st = .ok st' →
    st'.metrics.records_loaded = st.metrics.records_loaded + rs.length ∧
    st'.metrics.records_read = st.metrics.records_read ∧
    st'.metrics.duplicates_removed = st.metrics.duplicates_removed ∧
    st'.metrics.rows_dropped = st.metrics.rows_dropped
  | [], i, st, st', h => by
    cases h
    simp
  | r :: rs, i, st, st', h => by
    unfold prodLoad at h
    split at h
    · cases h
    · have ih := prodLoad_ok_counts oracle rs (i + 1) _ st' h
      simp only [Metrics.loaded] at ih
      simp only [List.length_cons]
      refine ⟨?_, ih.2.1, ih.2.2.1, ih.2.2.2⟩
      have := ih.1
      omega

/-- C7: on an error-free run of the product loader, every deduplicated row
with absent stock quantity contributes exactly one `missing_values_filled`
count (the filled total is the number of such rows); such a row with a present
price survives to the insert stage and is stored with `stock_quantity = 0`;
and every row with a missing price is dropped — counted under
`missing_price` and absent from the insert stage. -/
theorem product_stock_fill_price_drop (input : List RawProduct) (rows0 : List ProductRow)
    (key0 : Nat) (st : ProdState)
    (h : process_products input rows0 key0 (fun _ => false) = .ok st) :
    st.metrics.missing_values_filled = prodNullStock input ∧
    st.rows = rows0 ++ buildProdRows key0 (prodSurvivors input) ∧
    (∀ r ∈ dedupProd input, r.stock_quantity = none → r.price ≠ none →
      transformProduct r ∈ prodSurvivors input ∧
      ∃ k, (⟨k, r.product_name, titleCase (pyStrOfOpt r.category), r.price, 0⟩ : ProductRow) ∈
        st.rows) ∧
    st.metrics.reasonCount "missing_price" = prodMissingPrice input ∧
    (∀ r ∈ dedupProd input, r.price = none → transformProduct r ∉ prodSurvivors input) := by
  unfold process_products at h
  rw [prodLoad_noFail] at h
  injection h with h
  subst h
  refine ⟨?_, rfl, ?_, ?_, ?_⟩
  · simp [prodPreMetrics, Metrics.read, Metrics.dup, Metrics.filled, Metrics.dropped,
      Metrics.init]
  · intro r hr hstock hprice
    have hmem : transformProduct r ∈ prodSurvivors input := by
      unfold prodSurvivors
      refine List.mem_filter.mpr ⟨List.mem_map_of_mem transformProduct hr, ?_⟩
      cases hp : r.price with
      | none => exact absurd hp hprice
      | some v => simp [transformProduct, hp]
    refine ⟨hmem, ?_⟩
    obtain ⟨k, hk⟩ := mem_buildProdRows (prodSurvivors input) key0 (transformProduct r) hmem
    refine ⟨k, List.mem_append_right _ ?_⟩
    have hfields : (⟨k, r.product_name, titleCase (pyStrOfOpt r.category), r.price, 0⟩ :
        ProductRow) = ⟨k, (transformProduct r).product_name, (transformProduct r).category,
          (transformProduct r).price, (transformProduct r).stock_quantity⟩ := by
      simp [transformProduct, hstock]
    rw [hfields]
    exact hk
  · simp only [Metrics.reasonCount]
    have : ({ prodPreMetrics input with records_loaded :=
        (prodPreMetrics input).records_loaded + (prodSurvivors input).length } :
          Metrics).drop_reasons = (prodPreMetrics input).drop_reasons := rfl
    rw [this]
    show (prodPreMetrics input).reasonCount "missing_price" = prodMissingPrice input
    unfold prodPreMetrics
    rw [reasonCount_dropped, reasonCount_filled, reasonCount_dup, reasonCount_read,
      reasonCount_init]
    simp
  · intro r hr hprice hmem
    have := (List.mem_filter.mp hmem).2
    rw [show (transformProduct r).price = r.price from rfl, hprice] at this
    simp at this

/-- C7 witness: one product row with absent stock and present price, one with
missing price, evaluated against the stored table the loader produces. -/
theorem product_stock_fill_price_drop_witness :
    (⟨[⟨1, some "Widget", "Electronics", some 19, 0⟩], 2, [("P1", 1)],
        ⟨2, 0, 1, 1, 1, [("missing_price", 1)]⟩⟩ :
      ProdState).metrics.missing_values_filled =
        prodNullStock [⟨"P1", some "Widget", some "electronics", some 19, none⟩,
          ⟨"P2", some "Gadget", none, none, some 5⟩] ∧
    (∃ k, (⟨k, some "Widget", titleCase (pyStrOfOpt (some "electronics")), some 19, 0⟩ :
        ProductRow) ∈ (⟨[⟨1, some "Widget", "Electronics", some 19, 0⟩], 2, [("P1", 1)],
          ⟨2, 0, 1, 1, 1, [("missing_price", 1)]⟩⟩ : ProdState).rows) ∧
    (⟨[⟨1, some "Widget", "Electronics", some 19, 0⟩], 2, [("P1", 1)],
        ⟨2, 0, 1, 1, 1, [("missing_price", 1)]⟩⟩ :
      ProdState).metrics.reasonCount "missing_price" =
        prodMissingPrice [⟨"P1", some "Widget", some "electronics", some 19, none⟩,
          ⟨"P2", some "Gadget", none, none, some 5⟩] := by
  have hok : process_products [⟨"P1", some "Widget", some "electronics", some 19, none⟩,
      ⟨"P2", some "Gadget", none, none, some 5⟩] [] 1 (fun _ => false) =
      .ok ⟨[⟨1, some "Widget", "Electronics", some 19, 0⟩], 2, [("P1", 1)],
        ⟨2, 0, 1, 1, 1, [("missing_price", 1)]⟩⟩ := by rfl
  have h := product_stock_fill_price_drop
    [⟨"P1", some "Widget", some "electronics", some 19, none⟩,
     ⟨"P2", some "Gadget", none, none, some 5⟩] [] 1 _ hok
  have hr1 : (⟨"P1", some "Widget", some "electronics", some 19, none⟩ : RawProduct) ∈
      dedupProd [⟨"P1", some "Widget", some "electronics", some 19, none⟩,
        ⟨"P2", some "Gadget", none, none, some 5⟩] := by decide
  exact ⟨h.1, (h.2.2.1 _ hr1 rfl (by simp)).2, h.2.2.2.1⟩

/-! ### Lemmas about the sales aggregator -/

theorem foldl_add_rat (f : ValidSale → Rat) : ∀ (g : List ValidSale) (a : Rat),
    g.foldl (fun acc r => acc + f r) a = a + (g.map f).sum
  | [], a => by simp
  | r :: g, a => by
    simp only [List.foldl_cons, List.map_cons, List.sum_cons, foldl_add_rat f g]
    ring

theorem groupTotal_eq_sum (g : List ValidSale) :
    groupTotal g = (g.map (fun r => (r.quantity : Rat) * r.unit_price)).sum := by
  unfold groupTotal
  rw [foldl_add_rat]
  simp

theorem mem_salesKeys {valid : List ValidSale} {k : Nat} :
    k ∈ salesKeys valid ↔ ∃ r ∈ valid, r.transaction_id = k := by
  unfold salesKeys
  rw [List.mem_insertionSort, List.mem_dedup, List.mem_map]

theorem salesKeys_sorted (valid : List ValidSale) :
    List.Sorted (fun a b => a ≤ b) (salesKeys valid) :=
  List.sorted_insertionSort _ _

theorem salesKeys_nodup (valid : List ValidSale) : (salesKeys valid).Nodup :=
  (List.perm_insertionSort _ _).nodup_iff.mpr (List.nodup_dedup _)

theorem groupRows_ne_nil {valid : List ValidSale} {k : Nat} (h : k ∈ salesKeys valid) :
    groupRows valid k ≠ [] := by
  obtain ⟨r, hr, hk⟩ := mem_salesKeys.mp h
  intro hnil
  have hmem : r ∈ groupRows valid k := by
    unfold groupRows
    refine List.mem_filter.mpr ⟨hr, ?_⟩
    simp [hk]
  rw [hnil] at hmem
  exact absurd hmem (List.not_mem_nil r)

theorem loadSales_fold (valid : List ValidSale) : ∀ (ks : List Nat) (st : SalesState),
    (∀ k ∈ ks, groupRows valid k ≠ []) →
    ks.foldl (fun s k => insertGroup s (groupRows valid k)) st =
      ⟨st.orders ++ expOrders valid st.nextOrderId ks,
       st.items ++ expItems valid st.nextOrderId ks,
       st.nextOrderId + ks.length,
       st.itemsLoaded + (expItems valid st.nextOrderId ks).length⟩
  | [], st, _ => by simp [expOrders, expItems]
  | k :: ks, st, hne => by
    have hk := hne k (List.mem_cons_self k ks)
    have hrest : ∀ x ∈ ks, groupRows valid x ≠ [] :=
      fun x hx => hne x (List.mem_cons_of_mem k hx)
    cases hg : groupRows valid k with
    | nil => exact absurd hg hk
    | cons g0 gs =>
      simp only [List.foldl_cons]
      have hmk : mkOrder valid st.nextOrderId k =
          ⟨st.nextOrderId, g0.db_customer_id, g0.order_date, groupTotal (g0 :: gs),
            "Completed"⟩ := by
        unfold mkOrder
        rw [hg]
      have hins : insertGroup st (groupRows valid k) =
          ⟨st.orders ++ [mkOrder valid st.nextOrderId k],
           st.items ++ mkItemsList st.nextOrderId (g0 :: gs),
           st.nextOrderId + 1,
           st.itemsLoaded + (mkItemsList st.nextOrderId (g0 :: gs)).length⟩ := by
        rw [hg, hmk]
        rfl
      rw [hins, loadSales_fold valid ks _ hrest]
      simp only [expOrders, expItems, hmk, hg, List.append_assoc, List.singleton_append,
        List.length_cons, List.length_append, SalesState.mk.injEq]
      and_intros <;> first
        | rfl
        | trivial
        | omega

theorem expItems_length (valid : List ValidSale) : ∀ (ks : List Nat) (oid : Nat),
    (expItems valid oid ks).length = (ks.map (fun k => (groupRows valid k).length)).sum
  | [], _ => by simp [expItems]
  | k :: ks, oid => by
    simp [expItems, mkItemsList, expItems_length valid ks (oid + 1)]

theorem groupRows_partition (valid : List ValidSale) : ∀ (ks : List Nat), ks.Nodup →
    (∀ r ∈ valid, r.transaction_id ∈ ks) →
    (ks.map (fun k => (groupRows valid k).length)).sum = valid.length := by
  intro ks
  induction ks generalizing valid with
  | nil =>
    intro _ hcov
    have : valid = [] := List.eq_nil_iff_forall_not_mem.mpr
      (fun r hr => by simpa using hcov r hr)
    simp [this]
  | cons k ks ih =>
    intro hnd hcov
    have hksub : k ∉ ks := (List.nodup_cons.mp hnd).1
    have hnd' : ks.Nodup := (List.nodup_cons.mp hnd).2
    have hsplit := countP_filter_not (fun r : ValidSale => r.transaction_id == k) valid
    have hlen : (groupRows valid k).length =
        valid.countP (fun r => r.transaction_id == k) := by
      unfold groupRows
      rw [List.countP_eq_length_filter]
    have hgr : ∀ x ∈ ks, groupRows valid x =
        groupRows (valid.filter (fun r => !(r.transaction_id == k))) x := by
      intro x hx
      have hxk : ¬x = k := fun he => hksub (he ▸ hx)
      unfold groupRows
      rw [List.filter_filter]
      apply List.filter_congr
      intro a _
      cases ha : (a.transaction_id == x) with
      | false => simp
      | true =>
        have : a.transaction_id = x := by simpa using ha
        have : ¬(a.transaction_id == k) = true := by
          simp only [beq_iff_eq, this]
          exact hxk
        simp [this]
    have hcov' : ∀ r ∈ valid.filter (fun r => !(r.transaction_id == k)),
        r.transaction_id ∈ ks := by
      intro r hr
      obtain ⟨hrv, hrk⟩ := List.mem_filter.mp hr
      have := hcov r hrv
      rcases List.mem_cons.mp this with he | hin
      · rw [he] at hrk
        simp at hrk
      · exact hin
    have ihr := ih (valid.filter (fun r => !(r.transaction_id == k))) hnd' hcov'
    have hmap : ks.map (fun x => (groupRows valid x).length) =
        ks.map (fun x =>
          (groupRows (valid.filter (fun r => !(r.transaction_id == k))) x).length) := by
      apply List.map_congr_left
      intro x hx
      rw [hgr x hx]
    simp only [List.map_cons, List.sum_cons, hmap, ihr, hlen]
    omega

theorem itemInsertsF_noFail : ∀ (its : List OrderItemRow) (st : SalesState) (c : Nat),
    itemInsertsF (fun _ => false) its st c =
      .ok ({ st with items := st.items ++ its }, c + its.length)
  | [], st, c => by simp [itemInsertsF]
  | it :: its, st, c => by
    unfold itemInsertsF
    simp only [Bool.false_eq_true, if_false]
    rw [itemInsertsF_noFail its _ (c + 1)]
    simp only [Except.ok.injEq, Prod.mk.injEq, SalesState.mk.injEq, List.append_assoc,
      List.singleton_append, List.cons_append, List.nil_append, List.length_cons]
    and_intros <;> first
      | rfl
      | trivial
      | omega

theorem groupInsertF_noFail (valid : List ValidSale) (k : Nat) (st : SalesState) (c : Nat) :
    ∃ c2, groupInsertF valid (fun _ => false) k st c =
      .ok (insertGroup st (groupRows valid k), c2) := by
  cases hg : groupRows valid k with
  | nil =>
    refine ⟨c, ?_⟩
    simp [groupInsertF, insertGroup, hg]
  | cons g0 gs =>
    refine ⟨c + 1 + (mkItemsList st.nextOrderId (g0 :: gs)).length, ?_⟩
    simp only [groupInsertF, insertGroup, hg, Bool.false_eq_true, if_false,
      itemInsertsF_noFail]

theorem salesLoadF_noFail (valid : List ValidSale) : ∀ (ks : List Nat) (st : SalesState)
    (c : Nat), ∃ c2, salesLoadF valid (fun _ => false) ks st c =
      .ok (ks.foldl (fun s k => insertGroup s (groupRows valid k)) st, c2)
  | [], st, c => ⟨c, by simp [salesLoadF]⟩
  | k :: ks, st, c => by
    obtain ⟨c1, h1⟩ := groupInsertF_noFail valid k st c
    obtain ⟨c2, h2⟩ := salesLoadF_noFail valid ks (insertGroup st (groupRows valid k)) c1
    refine ⟨c2, ?_⟩
    unfold salesLoadF
    rw [h1]
    simpa using h2

theorem itemInsertsF_ok (oracle : Nat → Bool) : ∀ (its : List OrderItemRow)
    (st : SalesState) (c : Nat) (st' : SalesState) (c' : Nat),
    itemInsertsF oracle its st c = .ok (st', c') →
    st' = { st with items := st.items ++ its }
  | [], st, c, st', c', h => by
    simp only [itemInsertsF, Except.ok.injEq, Prod.mk.injEq] at h
    obtain ⟨h1, -⟩ := h
    rw [← h1]
    simp
  | it :: its, st, c, st', c', h => by
    unfold itemInsertsF at h
    split at h
    · cases h
    · have hrec := itemInsertsF_ok oracle its _ _ _ _ h
      rw [hrec]
      simp [List.append_assoc]

theorem groupInsertF_ok (valid : List ValidSale) (oracle : Nat → Bool) (k : Nat)
    (st : SalesState) (c : Nat) (st' : SalesState) (c' : Nat)
    (h : groupInsertF valid oracle k st c = .ok (st', c')) :
    st' = insertGroup st (groupRows valid k) := by
  unfold groupInsertF at h
  cases hg : groupRows valid k with
  | nil =>
    rw [hg] at h
    simp only [Except.ok.injEq, Prod.mk.injEq] at h
    rw [← h.1]
    simp [insertGroup, hg]
  | cons g0 gs =>
    rw [hg] at h
    simp only at h
    split at h
    · cases h
    · rename_i hc
      cases hi : itemInsertsF oracle
          (mkItemsList st.nextOrderId (g0 :: gs))
          { st with
            orders := st.orders ++ [⟨st.nextOrderId, g0.db_customer_id, g0.order_date,
              groupTotal (g0 :: gs), "Completed"⟩],
            nextOrderId := st.nextOrderId + 1 } (c + 1) with
      | error e =>
        rw [hi] at h
        cases h
      | ok p =>
        obtain ⟨st2, c2⟩ := p
        rw [hi] at h
        simp only [Except.ok.injEq, Prod.mk.injEq] at h
        have h2 := itemInsertsF_ok oracle _ _ _ _ _ hi
        rw [← h.1, h2]
        simp [insertGroup, hg]

theorem salesLoadF_ok (valid : List ValidSale) (oracle : Nat → Bool) : ∀ (ks : List Nat)
    (st : SalesState) (c : Nat) (st' : SalesState) (c' : Nat),
    salesLoadF valid oracle ks st c = .ok (st', c') →
    st' = ks.foldl (fun s k => insertGroup s (groupRows valid k)) st
  | [], st, c, st', c', h => by
    simp only [salesLoadF, Except.ok.injEq, Prod.mk.injEq] at h
    rw [← h.1]
    rfl
  | k :: ks, st, c, st', c', h => by
    unfold salesLoadF at h
    cases hgi : groupInsertF valid oracle k st c with
    | error e =>
      rw [hgi] at h
      cases h
    | ok p =>
      obtain ⟨st1, c1⟩ := p
      rw [hgi] at h
      simp only at h
      have h1 := groupInsertF_ok valid oracle k st c st1 c1 hgi
      have h2 := salesLoadF_ok valid oracle ks st1 c1 st' c' h
      rw [h2, h1]
      rfl

theorem filterMap_dates_length : ∀ (V : List MappedSale) (D : List (Option Date)),
    (∀ r ∈ V, isOrphanM r = false) → V.length = D.length →
    ((V.zip D).filterMap (fun p =>
      match p.1.db_customer_id, p.1.db_product_id, p.2 with
      | some c, some pr, some dt =>
        some (⟨p.1.transaction_id, c, pr, p.1.quantity, p.1.unit_price, fmtDate dt⟩ :
          ValidSale)
      | _, _, _ => none)).length + D.countP (fun d => d.isNone) = V.length
  | [], [], _, _ => by simp
  | [], d :: D, _, hlen => by simp at hlen
  | v :: V, [], _, hlen => by simp at hlen
  | v :: V, d :: D, horph, hlen => by
    have hv := horph v (List.mem_cons_self v V)
    have horph' : ∀ r ∈ V, isOrphanM r = false :=
      fun r hr => horph r (List.mem_cons_of_mem v hr)
    have hlen' : V.length = D.length := by simpa using hlen
    have ih := filterMap_dates_length V D horph' hlen'
    simp only [isOrphanM, Bool.or_eq_false_iff] at hv
    cases hc : v.db_customer_id with
    | none => rw [hc] at hv; simp at hv
    | some cid =>
      cases hp : v.db_product_id with
      | none => rw [hp] at hv; simp at hv
      | some pid =>
        cases d with
        | none =>
          simp [List.zip_cons_cons, List.filterMap_cons, hc, hp, List.countP_cons]
          omega
        | some dt =>
          simp [List.zip_cons_cons, List.filterMap_cons, hc, hp, List.countP_cons]
          omega

theorem finalSales_length (cmap pmap : List (String × Nat)) (input : List RawSale) :
    (finalSales cmap pmap input).length + salesFailedDates cmap pmap input =
      (validMapped cmap pmap input).length := by
  have hlen : (validMapped cmap pmap input).length = (salesDateCol cmap pmap input).length := by
    unfold salesDateCol
    rw [clean_date_series_eq_map, List.length_map, List.length_map]
  have horph : ∀ r ∈ validMapped cmap pmap input, isOrphanM r = false := by
    intro r hr
    have h := (List.mem_filter.mp hr).2
    simpa using h
  unfold finalSales salesFailedDates
  exact filterMap_dates_length (validMapped cmap pmap input) (salesDateCol cmap pmap input)
    horph hlen

theorem salesPreMetrics_fields (cmap pmap : List (String × Nat)) (input : List RawSale) :
    (salesPreMetrics cmap pmap input).records_read = input.length ∧
    (salesPreMetrics cmap pmap input).duplicates_removed =
      input.length - (dedupSales input).length ∧
    (salesPreMetrics cmap pmap input).rows_dropped =
      salesOrphanCount cmap pmap input + salesFailedDates cmap pmap input ∧
    (salesPreMetrics cmap pmap input).records_loaded = 0 := by
  unfold salesPreMetrics
  split
  · simp only [Metrics.read, Metrics.dup, Metrics.dropped, Metrics.init]
    and_intros <;> first
      | trivial
      | omega
  · rename_i hf
    simp only [Metrics.read, Metrics.dup, Metrics.dropped, Metrics.init]
    and_intros <;> first
      | trivial
      | omega

theorem process_sales_ok_shape (input : List RawSale) (cmap pmap : List (String × Nat))
    (st0 : SalesState) (oracle : Nat → Bool) (res : SalesResult)
    (h : process_sales input cmap pmap st0 oracle = .ok res) :
    res.state = loadSales (finalSales cmap pmap input) st0 ∧
    res.metrics = (salesPreMetrics cmap pmap input).loaded
      (res.state.itemsLoaded - st0.itemsLoaded) := by
  unfold process_sales at h
  cases hl : salesLoadF (finalSales cmap pmap input) oracle
      (salesKeys (finalSales cmap pmap input)) st0 0 with
  | error e =>
    obtain ⟨est, ec⟩ := e
    rw [hl] at h
    simp at h
  | ok p =>
    obtain ⟨st, c⟩ := p
    rw [hl] at h
    simp only [Except.ok.injEq] at h
    have hst := salesLoadF_ok (finalSales cmap pmap input) oracle _ _ _ _ _ hl
    rw [← h]
    constructor
    · rw [hst]
      try rfl
    · rw [hst]
      try rfl

theorem expOrders_length (valid : List ValidSale) : ∀ (ks : List Nat) (oid : Nat),
    (expOrders valid oid ks).length = ks.length
  | [], _ => rfl
  | k :: ks, oid => by
    simp [expOrders, expOrders_length valid ks (oid + 1)]

/-- C3: the sales insert phase groups the surviving rows by transaction id and
processes the groups in ascending transaction-id order (the keys are sorted,
duplicate-free, and exactly the ids present); for each group it appends
exactly one Order — whose `total_amount` is the sum over the group of
quantity times unit price — followed by one OrderItem per row of the group in
source order, each with `subtotal` equal to its quantity times unit price; in
particular the group with rows (qty 2, price 10.00) and (qty 1, price 5.00)
yields total 25.00 and item subtotals 20.00 and 5.00. -/
theorem sales_grouping_orders_items (valid : List ValidSale) (st0 : SalesState) :
    List.Sorted (fun a b => a ≤ b) (salesKeys valid) ∧
    (salesKeys valid).Nodup ∧
    (∀ k, k ∈ salesKeys valid ↔ ∃ r ∈ valid, r.transaction_id = k) ∧
    loadSales valid st0 =
      ⟨st0.orders ++ expOrders valid st0.nextOrderId (salesKeys valid),
       st0.items ++ expItems valid st0.nextOrderId (salesKeys valid),
       st0.nextOrderId + (salesKeys valid).length,
       st0.itemsLoaded + (expItems valid st0.nextOrderId (salesKeys valid)).length⟩ ∧
    (∀ (ks : List Nat) (oid : Nat), (expOrders valid oid ks).length = ks.length) ∧
    (∀ (oid k : Nat), groupRows valid k ≠ [] →
      (mkOrder valid oid k).order_id = oid ∧
      (mkOrder valid oid k).total_amount =
        ((groupRows valid k).map (fun r => (r.quantity : Rat) * r.unit_price)).sum) ∧
    (∀ (oid : Nat) (g : List ValidSale), mkItemsList oid g = g.map (fun r =>
      (⟨oid, r.db_product_id, r.quantity, r.unit_price,
        (r.quantity : Rat) * r.unit_price⟩ : OrderItemRow))) ∧
    groupTotal [⟨1, 1, 1, 2, 10, "2024-01-15"⟩, ⟨1, 1, 2, 1, 5, "2024-01-15"⟩] = 25 ∧
    mkItemsList 1 [⟨1, 1, 1, 2, 10, "2024-01-15"⟩, ⟨1, 1, 2, 1, 5, "2024-01-15"⟩] =
      [⟨1, 1, 2, 10, 20⟩, ⟨1, 2, 1, 5, 5⟩] := by
  refine ⟨salesKeys_sorted valid, salesKeys_nodup valid, fun k => mem_salesKeys, ?_,
    expOrders_length valid, ?_, fun oid g => rfl, by norm_num [groupTotal],
    by norm_num [mkItemsList, OrderItemRow.mk.injEq]⟩
  · unfold loadSales
    exact loadSales_fold valid (salesKeys valid) st0 (fun k hk => groupRows_ne_nil hk)
  · intro oid k hne
    cases hg : groupRows valid k with
    | nil => exact absurd hg hne
    | cons g0 gs =>
      have hid : (mkOrder valid oid k).order_id = oid := by
        unfold mkOrder
        rw [hg]
      have htot : (mkOrder valid oid k).total_amount = groupTotal (groupRows valid k) := by
        unfold mkOrder
        rw [hg]
      exact ⟨hid, by rw [htot, groupTotal_eq_sum, hg]⟩

/-- C3 witness: the grouping facts evaluated on the two-row example group. -/
theorem sales_grouping_orders_items_witness :
    groupRows [⟨1, 1, 1, 2, 10, "2024-01-15"⟩, ⟨1, 1, 2, 1, 5, "2024-01-15"⟩] 1 ≠ [] ∧
    (mkOrder [⟨1, 1, 1, 2, 10, "2024-01-15"⟩, ⟨1, 1, 2, 1, 5, "2024-01-15"⟩] 1 1).total_amount =
      ((groupRows [⟨1, 1, 1, 2, 10, "2024-01-15"⟩, ⟨1, 1, 2, 1, 5, "2024-01-15"⟩] 1).map
        (fun r => (r.quantity : Rat) * r.unit_price)).sum := by
  have hne : groupRows [⟨1, 1, 1, 2, 10, "2024-01-15"⟩, ⟨1, 1, 2, 1, 5, "2024-01-15"⟩] 1 ≠
      [] := by decide
  have h := sales_grouping_orders_items
    [⟨1, 1, 1, 2, 10, "2024-01-15"⟩, ⟨1, 1, 2, 1, 5, "2024-01-15"⟩] ⟨[], [], 1, 0⟩
  exact ⟨hne, (h.2.2.2.2.2.1 1 1 hne).2⟩

/-- C4: a deduplicated sales row whose source customer id or product id fails
to resolve through the identity maps is an orphan: it is excluded from the
surviving rows, the drop counter records every such row under
`orphan_record_missing_parent`, and the insert phase emits one OrderItem per
surviving row only — zero Orders and zero OrderItems for orphans. -/
theorem sales_orphans_dropped (input : List RawSale) (cmap pmap : List (String × Nat))
    (st0 : SalesState) (oracle : Nat → Bool) (res : SalesResult)
    (h : process_sales input cmap pmap st0 oracle = .ok res) :
    res.metrics.reasonCount "orphan_record_missing_parent" =
      salesOrphanCount cmap pmap input ∧
    (∀ r ∈ mappedSales cmap pmap input, isOrphanM r = true →
      r ∉ validMapped cmap pmap input) ∧
    res.state.items.length = st0.items.length + (finalSales cmap pmap input).length ∧
    res.metrics.records_loaded = (finalSales cmap pmap input).length := by
  obtain ⟨hstate, hmetr⟩ := process_sales_ok_shape input cmap pmap st0 oracle res h
  have hcov : ∀ r ∈ finalSales cmap pmap input,
      r.transaction_id ∈ salesKeys (finalSales cmap pmap input) :=
    fun r hr => mem_salesKeys.mpr ⟨r, hr, rfl⟩
  have hsum := groupRows_partition (finalSales cmap pmap input)
    (salesKeys (finalSales cmap pmap input)) (salesKeys_nodup _) hcov
  have hitems := expItems_length (finalSales cmap pmap input)
    (salesKeys (finalSales cmap pmap input)) st0.nextOrderId
  have hfold := loadSales_fold (finalSales cmap pmap input)
    (salesKeys (finalSales cmap pmap input)) st0 (fun k hk => groupRows_ne_nil hk)
  have hstate' : res.state =
      ⟨st0.orders ++ expOrders (finalSales cmap pmap input) st0.nextOrderId
          (salesKeys (finalSales cmap pmap input)),
       st0.items ++ expItems (finalSales cmap pmap input) st0.nextOrderId
          (salesKeys (finalSales cmap pmap input)),
       st0.nextOrderId + (salesKeys (finalSales cmap pmap input)).length,
       st0.itemsLoaded + (expItems (finalSales cmap pmap input) st0.nextOrderId
          (salesKeys (finalSales cmap pmap input))).length⟩ := by
    rw [hstate]
    unfold loadSales
    exact hfold
  refine ⟨?_, ?_, ?_, ?_⟩
  · rw [hmetr, reasonCount_loaded]
    unfold salesPreMetrics
    split
    · rw [reasonCount_dropped, reasonCount_dropped, reasonCount_dup, reasonCount_read,
        reasonCount_init]
      simp
    · rw [reasonCount_dropped, reasonCount_dup, reasonCount_read, reasonCount_init]
      simp
  · intro r hr ho hmem
    have hp := (List.mem_filter.mp hmem).2
    rw [ho] at hp
    simp at hp
  · rw [hstate']
    simp only [List.length_append]
    rw [hitems, hsum]
  · rw [hmetr]
    have hload : (salesPreMetrics cmap pmap input).records_loaded = 0 :=
      (salesPreMetrics_fields cmap pmap input).2.2.2
    simp only [Metrics.loaded]
    rw [hload, hstate']
    simp only [hitems, hsum]
    omega

/-- C4 witness: one orphan row (unmapped customer id) is dropped and
contributes zero items. -/
theorem sales_orphans_dropped_witness :
    ((⟨⟨[], [], 1, 0⟩, ⟨1, 0, 0, 1, 0, [("orphan_record_missing_parent", 1)]⟩⟩ :
        SalesResult)).metrics.reasonCount "orphan_record_missing_parent" =
      salesOrphanCount [("C1", 1)] [("P1", 1)] [⟨1, "C9", "P1", 1, 7, some "2024-01-16"⟩] ∧
    ((⟨⟨[], [], 1, 0⟩, ⟨1, 0, 0, 1, 0, [("orphan_record_missing_parent", 1)]⟩⟩ :
        SalesResult)).state.items.length =
      (⟨[], [], 1, 0⟩ : SalesState).items.length +
        (finalSales [("C1", 1)] [("P1", 1)] [⟨1, "C9", "P1", 1, 7, some "2024-01-16"⟩]).length := by
  have h := sales_orphans_dropped [⟨1, "C9", "P1", 1, 7, some "2024-01-16"⟩] [("C1", 1)]
    [("P1", 1)] ⟨[], [], 1, 0⟩ (fun _ => false)
    ⟨⟨[], [], 1, 0⟩, ⟨1, 0, 0, 1, 0, [("orphan_record_missing_parent", 1)]⟩⟩ (by rfl)
  exact ⟨h.1, h.2.2.1⟩

theorem prodPreMetrics_fields (input : List RawProduct) :
    (prodPreMetrics input).records_read = input.length ∧
    (prodPreMetrics input).duplicates_removed = input.length - (dedupProd input).length ∧
    (prodPreMetrics input).rows_dropped = prodMissingPrice input ∧
    (prodPreMetrics input).records_loaded = 0 := by
  unfold prodPreMetrics
  simp only [Metrics.read, Metrics.dup, Metrics.filled, Metrics.dropped, Metrics.init]
  and_intros <;> first
    | trivial
    | omega

theorem process_customers_metric_fields (input : List RawCustomer) (db0 : CustDB)
    (oracle : Nat → Bool) :
    (process_customers input db0 oracle).metrics.records_read = input.length ∧
    (process_customers input db0 oracle).metrics.duplicates_removed =
      input.length - (dedupCust input).length ∧
    (process_customers input db0 oracle).metrics.rows_dropped = custMissing input ∧
    (process_customers input db0 oracle).metrics.records_loaded =
      (custLoadZ ⟨db0, [], 0, []⟩ ((transformCustomers (custSurvivors input)).zip
        ((List.range (transformCustomers (custSurvivors input)).length).map
          oracle))).loadedCount := by
  unfold process_customers
  split <;>
    (simp only [Metrics.read, Metrics.dup, Metrics.dropped, Metrics.filled, Metrics.loaded,
      Metrics.init]
     and_intros <;> first
       | trivial
       | omega)

/-- C9: for each loader, once it finishes, `records_read` minus
`duplicates_removed` minus `rows_dropped` equals the number of rows that
reached the insert stage, and `records_loaded` is at most that number (for
customers the gap comes from duplicate-key fallbacks and skipped failing
inserts; products and sales reach it exactly when they complete). -/
theorem metrics_reconciliation :
    (∀ (input : List RawCustomer) (db0 : CustDB) (oracle : Nat → Bool),
      (process_customers input db0 oracle).metrics.records_read =
        (process_customers input db0 oracle).metrics.duplicates_removed +
          (process_customers input db0 oracle).metrics.rows_dropped +
          (custSurvivors input).length ∧
      (process_customers input db0 oracle).metrics.records_loaded ≤
        (custSurvivors input).length) ∧
    (∀ (input : List RawProduct) (rows0 : List ProductRow) (key0 : Nat)
        (oracle : Nat → Bool) (st : ProdState),
        process_products input rows0 key0 oracle = .ok st →
      st.metrics.records_read = st.metrics.duplicates_removed + st.metrics.rows_dropped +
        (prodSurvivors input).length ∧
      st.metrics.records_loaded ≤ (prodSurvivors input).length) ∧
    (∀ (input : List RawSale) (cmap pmap : List (String × Nat)) (st0 : SalesState)
        (oracle : Nat → Bool) (res : SalesResult),
        process_sales input cmap pmap st0 oracle = .ok res →
      res.metrics.records_read = res.metrics.duplicates_removed +
        res.metrics.rows_dropped + (finalSales cmap pmap input).length ∧
      res.metrics.records_loaded ≤ (finalSales cmap pmap input).length) := by
  refine ⟨?_, ?_, ?_⟩
  · intro input db0 oracle
    obtain ⟨hread, hdup, hdrop, hload⟩ := process_customers_metric_fields input db0 oracle
    have h1 : (dedupCust input).length ≤ input.length := dedupBy_length_le _ input
    have h2 := countP_filter_not (fun r : RawCustomer => r.email == none) (dedupCust input)
    have hsurv : (custSurvivors input).length =
        ((dedupCust input).filter (fun r => !(r.email == none))).length := rfl
    have hmiss : custMissing input =
        (dedupCust input).countP (fun r => r.email == none) := rfl
    constructor
    · rw [hread, hdup, hdrop, hsurv, hmiss]
      omega
    · rw [hload]
      have h3 := custLoadZ_loaded_le ((transformCustomers (custSurvivors input)).zip
        ((List.range (transformCustomers (custSurvivors input)).length).map oracle))
        ⟨db0, [], 0, []⟩
      have h4 : ((transformCustomers (custSurvivors input)).zip
          ((List.range (transformCustomers (custSurvivors input)).length).map
            oracle)).length = (custSurvivors input).length := by
        rw [List.length_zip, List.length_map, List.length_range,
          transformCustomers_eq_map, List.length_map]
        omega
      rw [h4] at h3
      simpa using h3
  · intro input rows0 key0 oracle st h
    unfold process_products at h
    obtain ⟨hl, hr, hd, hdr⟩ := prodLoad_ok_counts oracle (prodSurvivors input) 0 _ st h
    obtain ⟨pr, pd, pdr, pl⟩ := prodPreMetrics_fields input
    have h1 : (dedupProd input).length ≤ input.length := dedupBy_length_le _ input
    have h2 := countP_filter_not (fun r : PendingProduct => r.price == none)
      ((dedupProd input).map transformProduct)
    have hsurv : (prodSurvivors input).length =
        (((dedupProd input).map transformProduct).filter
          (fun r => !(r.price == none))).length := rfl
    have hmiss : prodMissingPrice input =
        ((dedupProd input).map transformProduct).countP (fun r => r.price == none) := rfl
    have hmaplen : ((dedupProd input).map transformProduct).length =
        (dedupProd input).length := List.length_map _ _
    constructor
    · rw [hr, hd, hdr, pr, pd, pdr, hsurv, hmiss]
      omega
    · rw [hl, pl]
      omega
  · intro input cmap pmap st0 oracle res h
    obtain ⟨hstate, hmetr⟩ := process_sales_ok_shape input cmap pmap st0 oracle res h
    obtain ⟨sr, sd, sdr, sl⟩ := salesPreMetrics_fields cmap pmap input
    have hcov : ∀ r ∈ finalSales cmap pmap input,
        r.transaction_id ∈ salesKeys (finalSales cmap pmap input) :=
      fun r hr => mem_salesKeys.mpr ⟨r, hr, rfl⟩
    have hsum := groupRows_partition (finalSales cmap pmap input)
      (salesKeys (finalSales cmap pmap input)) (salesKeys_nodup _) hcov
    have hitems := expItems_length (finalSales cmap pmap input)
      (salesKeys (finalSales cmap pmap input)) st0.nextOrderId
    have hfold := loadSales_fold (finalSales cmap pmap input)
      (salesKeys (finalSales cmap pmap input)) st0 (fun k hk => groupRows_ne_nil hk)
    have hil : res.state.itemsLoaded =
        st0.itemsLoaded + (finalSales cmap pmap input).length := by
      rw [hstate]
      unfold loadSales
      rw [hfold]
      simp only [hitems, hsum]
    have h1 : (dedupSales input).length ≤ input.length := dedupBy_length_le _ input
    have h2 := countP_filter_not isOrphanM (mappedSales cmap pmap input)
    have hval : (validMapped cmap pmap input).length =
        ((mappedSales cmap pmap input).filter (fun r => !(isOrphanM r))).length := rfl
    have horph : salesOrphanCount cmap pmap input =
        (mappedSales cmap pmap input).countP isOrphanM := rfl
    have hmaplen : (mappedSales cmap pmap input).length = (dedupSales input).length :=
      List.length_map _ _
    have hfin := finalSales_length cmap pmap input
    constructor
    · rw [hmetr]
      simp only [Metrics.loaded]
      rw [sr, sd, sdr]
      rw [horph] at *
      omega
    · rw [hmetr]
      simp only [Metrics.loaded]
      rw [sl, hil]
      omega

/-- C9 witness: the reconciliation applied to each loader on a small run. -/
theorem metrics_reconciliation_witness :
    ((process_customers [] CustDB.empty (fun _ => false)).metrics.records_read =
      (process_customers [] CustDB.empty (fun _ => false)).metrics.duplicates_removed +
        (process_customers [] CustDB.empty (fun _ => false)).metrics.rows_dropped +
        (custSurvivors []).length) ∧
    ((⟨[], 1, [], prodPreMetrics []⟩ : ProdState).metrics.records_read =
      (⟨[], 1, [], prodPreMetrics []⟩ : ProdState).metrics.duplicates_removed +
        (⟨[], 1, [], prodPreMetrics []⟩ : ProdState).metrics.rows_dropped +
        (prodSurvivors []).length) ∧
    ((⟨⟨[], [], 1, 0⟩, (salesPreMetrics [] [] []).loaded 0⟩ :
        SalesResult).metrics.records_loaded ≤ (finalSales [] [] []).length) := by
  have h := metrics_reconciliation
  have hc := h.1 [] CustDB.empty (fun _ => false)
  have hp := h.2.1 [] [] 1 (fun _ => false) ⟨[], 1, [], prodPreMetrics []⟩ (by rfl)
  have hs := h.2.2 [] [] [] ⟨[], [], 1, 0⟩ (fun _ => false)
    ⟨⟨[], [], 1, 0⟩, (salesPreMetrics [] [] []).loaded 0⟩ (by rfl)
  exact ⟨hc.1, hp.1, hs.2⟩

/-- C8 counterexample: the product loader has no per-row exception handler.
With the first INSERT raising a storage error, the loader aborts carrying the
untouched table — the second (perfectly insertable) row is left unprocessed —
instead of logging, skipping the row and continuing as the claim states; the
same input loads both rows when no error occurs. -/
theorem product_insert_error_aborts :
    process_products
        [⟨"P1", some "Widget", some "electronics", some 10, some 1⟩,
         ⟨"P2", some "Gadget", some "fashion", some 5, some 2⟩] [] 1 (fun i => i == 0) =
      .error ⟨[], 1, [], prodPreMetrics
        [⟨"P1", some "Widget", some "electronics", some 10, some 1⟩,
         ⟨"P2", some "Gadget", some "fashion", some 5, some 2⟩]⟩ ∧
    (process_products
        [⟨"P1", some "Widget", some "electronics", some 10, some 1⟩,
         ⟨"P2", some "Gadget", some "fashion", some 5, some 2⟩] [] 1 (fun i => i == 0) :
      Except ProdState ProdState).isOk = false := by
  constructor
  · rfl
  · rfl

/-- C8 as amended: only the customer loader recovers from an unanticipated
per-row insert error — the failing row is logged and skipped and the
remaining rows are processed exactly as if the row were absent; the product
and sales loaders have no per-row handler, so such an error propagates and
aborts the load with the state reached so far and all remaining rows
unprocessed. -/
theorem insert_error_handling_per_loader :
    (∀ (db0 : CustDB) (pre post : List (PendingCustomer × Bool)) (r : PendingCustomer),
      (custLoadZ ⟨db0, [], 0, []⟩ (pre ++ (r, true) :: post)).db =
        (custLoadZ ⟨db0, [], 0, []⟩ (pre ++ post)).db ∧
      (custLoadZ ⟨db0, [], 0, []⟩ (pre ++ (r, true) :: post)).idMap =
        (custLoadZ ⟨db0, [], 0, []⟩ (pre ++ post)).idMap ∧
      (custLoadZ ⟨db0, [], 0, []⟩ (pre ++ (r, true) :: post)).loadedCount =
        (custLoadZ ⟨db0, [], 0, []⟩ (pre ++ post)).loadedCount ∧
      (custLoadZ ⟨db0, [], 0, []⟩ (pre ++ (r, true) :: post)).log.length =
        (custLoadZ ⟨db0, [], 0, []⟩ (pre ++ post)).log.length + 1) ∧
    (∀ (input : List RawProduct) (rows0 : List ProductRow) (key0 : Nat),
      prodSurvivors input ≠ [] →
      process_products input rows0 key0 (fun _ => true) =
        .error ⟨rows0, key0, [], prodPreMetrics input⟩) ∧
    (∀ (input : List RawSale) (cmap pmap : List (String × Nat)) (st0 : SalesState),
      finalSales cmap pmap input ≠ [] →
      process_sales input cmap pmap st0 (fun _ => true) =
        .error (st0, 0, salesPreMetrics cmap pmap input)) := by
  refine ⟨custLoadZ_skip, ?_, ?_⟩
  · intro input rows0 key0 hne
    unfold process_products
    cases hs : prodSurvivors input with
    | nil => exact absurd hs hne
    | cons r rs =>
      rfl
  · intro input cmap pmap st0 hne
    unfold process_sales
    cases hks : salesKeys (finalSales cmap pmap input) with
    | nil =>
      exfalso
      obtain ⟨f0, hf0⟩ := List.exists_mem_of_ne_nil _ hne
      have hmem := mem_salesKeys.mpr ⟨f0, hf0, rfl⟩
      rw [hks] at hmem
      exact absurd hmem (List.not_mem_nil _)
    | cons k ks =>
      have hkmem : k ∈ salesKeys (finalSales cmap pmap input) := by
        rw [hks]
        exact List.mem_cons_self k ks
      have hgr := groupRows_ne_nil hkmem
      cases hg : groupRows (finalSales cmap pmap input) k with
      | nil => exact absurd hg hgr
      | cons g0 gs =>
        have hload : salesLoadF (finalSales cmap pmap input) (fun _ => true) (k :: ks)
            st0 0 = .error (st0, 0) := by
          unfold salesLoadF groupInsertF
          rw [hg]
          rfl
        rw [hload]

/-- C8 witness: the amended statement instantiated — a failing middle row in
the customer insert loop is skipped with one log entry, and a one-row product
load and one-row sales load abort under a failing insert. -/
theorem insert_error_handling_per_loader_witness :
    ((custLoadZ ⟨CustDB.empty, [], 0, []⟩
        ([] ++ (⟨"C1", none, none, some "a@x.com", none, none, none⟩, true) :: [])).db =
      (custLoadZ ⟨CustDB.empty, [], 0, []⟩ ([] ++ [])).db) ∧
    prodSurvivors [⟨"P1", some "Widget", some "electronics", some 10, some 1⟩] ≠ [] ∧
    process_products [⟨"P1", some "Widget", some "electronics", some 10, some 1⟩] [] 1
        (fun _ => true) =
      .error ⟨[], 1, [], prodPreMetrics
        [⟨"P1", some "Widget", some "electronics", some 10, some 1⟩]⟩ ∧
    finalSales [("C1", 1)] [("P1", 1)] [⟨1, "C1", "P1", 1, 7, some "2024-01-16"⟩] ≠ [] ∧
    process_sales [⟨1, "C1", "P1", 1, 7, some "2024-01-16"⟩] [("C1", 1)] [("P1", 1)]
        ⟨[], [], 1, 0⟩ (fun _ => true) =
      .error (⟨[], [], 1, 0⟩, 0, salesPreMetrics [("C1", 1)] [("P1", 1)]
        [⟨1, "C1", "P1", 1, 7, some "2024-01-16"⟩]) := by
  have h := insert_error_handling_per_loader
  have hps : prodSurvivors [⟨"P1", some "Widget", some "electronics", some 10, some 1⟩] ≠
      [] := by decide
  have hfs : finalSales [("C1", 1)] [("P1", 1)] [⟨1, "C1", "P1", 1, 7, some "2024-01-16"⟩] ≠
      [] := by decide
  exact ⟨(h.1 CustDB.empty []
      [] ⟨"C1", none, none, some "a@x.com", none, none, none⟩).1, hps,
    h.2.1 _ [] 1 hps, hfs,
    h.2.2 [⟨1, "C1", "P1", 1, 7, some "2024-01-16"⟩] [("C1", 1)] [("P1", 1)]
      ⟨[], [], 1, 0⟩ hfs⟩

end Fleximart
